import Mathlib

/-!
Verification of the intelligence-extraction and turn-orchestration core of
the `open_api_guvi` honeypot service.

The development shallowly embeds the Python sources:

* `src/extractor.py` — the regex-based entity extractor.  The regular
  expressions are embedded as data (`RE`) together with a backtracking
  matcher (`mtch`) and a `findall` scanner (`scanAll`) that follow the
  leftmost / greedy / continue-after-match semantics of Python's `re`
  module for the constructs those patterns use (character classes,
  literals, concatenation, ordered alternation, greedy bounded and
  unbounded repetition, word boundaries, one negative lookahead and one
  capture group).  Machine text is `List Char` / `String`; Python
  `str.lower`/`str.strip` are modelled on ASCII, which covers every
  character class the patterns accept.
* `src/agent.py` — the per-turn state update of `run_agent`: regex
  extraction over the full conversation, the intel-agent fallback, the
  union of regex and LLM intelligence, persistence into the session, the
  pacing-delay computation and the callback decision.  The two LLM calls
  and the outbound delivery POST are external collaborators and enter the
  embedding as parameters (`Except Unit _` outcomes, a delivery-success
  flag); a raise and a timeout both surface as the `.error` outcome, as
  they do through `asyncio.gather(..., return_exceptions=True)` /
  `asyncio.wait_for`.  The background callback task is modelled as
  completing before the session's next turn (sequential one-turn-at-a-time
  protocol); the agent-note text assembly (`agent.py` lines 428–446) is
  not modelled, no claim depends on the note text.
* `src/src/prompt_builder.py` — `detect_scam_type`, the keyword-scoring
  classification fallback.
* `src/src/routes.py` — the `/analyze` endpoint's try/except shell.
* `src/main.py` — `score_response`, the candidate scorer (floats are
  modelled as `ℚ`).
-/

namespace Guvi

/-! ### ASCII character helpers (Python `str` operations on the ASCII range) -/

/-- ASCII decimal digit (`\d` of Python `re` on ASCII input). -/
def isDigitC (c : Char) : Bool := '0' ≤ c && c ≤ '9'

/-- ASCII letter (`[a-zA-Z]`). -/
def isAlphaC (c : Char) : Bool := ('a' ≤ c && c ≤ 'z') || ('A' ≤ c && c ≤ 'Z')

/-- ASCII lowercase letter (`[a-z]`). -/
def isLowerAlphaC (c : Char) : Bool := 'a' ≤ c && c ≤ 'z'

/-- ASCII letter or digit (`[a-zA-Z0-9]`). -/
def isAlnumC (c : Char) : Bool := isAlphaC c || isDigitC c

/-- Word character for `\b` (`[a-zA-Z0-9_]`). -/
def isWordC (c : Char) : Bool := isAlnumC c || c = '_'

/-- Whitespace (`\s` of Python `re` on ASCII input). -/
def isSpaceC (c : Char) : Bool :=
  c = ' ' || c = '\t' || c = '\n' || c = '\x0d' || c = '\x0b' || c = '\x0c'

/-- ASCII `str.lower` on one character. -/
def asciiLower (c : Char) : Char :=
  if 'A' ≤ c && c ≤ 'Z' then Char.ofNat (c.toNat + 32) else c

/-- `str.lower` (ASCII model). -/
def lowerStr (s : String) : String := String.mk (s.data.map asciiLower)

/-- `str.strip()` : drop leading and trailing whitespace. -/
def pyStrip (s : String) : String :=
  String.mk (((s.data.dropWhile isSpaceC).reverse.dropWhile isSpaceC).reverse)

/-- `needle in hay` for lists (Python substring membership). -/
def listPrefixOf : List Char → List Char → Bool
  | [], _ => true
  | _ :: _, [] => false
  | a :: as, b :: bs => a = b && listPrefixOf as bs

/-- Python's `needle in hay` on lists of characters. -/
def listInfixOf (n : List Char) : List Char → Bool
  | [] => listPrefixOf n []
  | c :: t => listPrefixOf n (c :: t) || listInfixOf n t

/-- Python's `needle in hay` substring test. -/
def substrIn (needle hay : String) : Bool := listInfixOf needle.data hay.data

/-- `re.sub(r'\D', '', s)` : keep only the digits of `s`. -/
def digitsOf (s : String) : List Char := s.data.filter isDigitC

/-- Python `l[-10:]` on a character list. -/
def lastTen (l : List Char) : List Char := l.drop (l.length - 10)

/-- The text after the first `'@'` of the list (`value.split("@", 1)[1]`). -/
def afterFirstAt (l : List Char) : List Char := (l.dropWhile (· ≠ '@')).drop 1

/-! ### Regular expressions as data

Only the constructs used by `src/extractor.py` are represented.  `litCI`
stores its letter lowercase and also accepts the uppercase form
(`re.IGNORECASE` literals).  `plusCls`/`starCls` are the greedy `+`/`*` of
a single character class; counted repetition is unfolded by the builders
below.  `grp` is capture group 1 (each pattern of the source has at most
one group). -/

inductive RE where
  | eps : RE
  | cls (p : Char → Bool) : RE
  | lit (c : Char) : RE
  | litCI (c : Char) : RE
  | seq (r1 r2 : RE) : RE
  | alt (r1 r2 : RE) : RE
  | plusCls (p : Char → Bool) : RE
  | starCls (p : Char → Bool) : RE
  | wordB : RE
  | nla (r : RE) : RE
  | grp (r : RE) : RE

/-- `\b` holds between a word character and a non-word character (text
edges count as non-word). -/
def atBoundary (left right : Option Char) : Bool :=
  (match left with | none => false | some c => isWordC c) ≠
  (match right with | none => false | some c => isWordC c)

/-- One capture: absolute start and end offsets of group 1. -/
abbrev Cap := Option (Nat × Nat)

mutual

/-- Backtracking matcher in continuation style.  `l` is the already-read
text, reversed (so `l.head?` is the character just left of the current
position and `l.length` the absolute offset); `r` is the remaining text;
`cap` the capture recorded so far.  On success the continuation `k`
receives the updated position and capture; `none` from `k` backtracks, so
alternatives are tried left to right and repetitions longest first —
Python `re`'s leftmost/greedy strategy. -/
def mtch : RE → List Char → List Char → Cap →
    (List Char → List Char → Cap → Option (Nat × Cap)) → Option (Nat × Cap)
  | .eps, l, r, cap, k => k l r cap
  | .cls p, l, r, cap, k =>
      match r with
      | [] => none
      | c :: rest => if p c then k (c :: l) rest cap else none
  | .lit c, l, r, cap, k =>
      match r with
      | [] => none
      | c' :: rest => if c' = c then k (c' :: l) rest cap else none
  | .litCI c, l, r, cap, k =>
      match r with
      | [] => none
      | c' :: rest => if asciiLower c' = c then k (c' :: l) rest cap else none
  | .seq r1 r2, l, r, cap, k =>
      mtch r1 l r cap (fun l' r' cap' => mtch r2 l' r' cap' k)
  | .alt r1 r2, l, r, cap, k =>
      match mtch r1 l r cap k with
      | some res => some res
      | none => mtch r2 l r cap k
  | .plusCls p, l, r, cap, k =>
      tryConsume p l r cap k (r.takeWhile p).length
  | .starCls p, l, r, cap, k =>
      match tryConsume p l r cap k (r.takeWhile p).length with
      | some res => some res
      | none => k l r cap
  | .wordB, l, r, cap, k =>
      if atBoundary l.head? r.head? then k l r cap else none
  | .nla r1, l, r, cap, k =>
      match mtch r1 l r cap (fun l' _ cap' => some (l'.length, cap')) with
      | some _ => none
      | none => k l r cap
  | .grp r1, l, r, cap, k =>
      mtch r1 l r cap (fun l' r' _ => k l' r' (some (l.length, l'.length)))

/-- Greedy consumption of `n` down to `1` characters of a class run
(the backtracking of `[…]+`); all `n` first characters of `r` satisfy the
class when `n ≤ (r.takeWhile p).length`. -/
def tryConsume (p : Char → Bool) (l r : List Char) (cap : Cap)
    (k : List Char → List Char → Cap → Option (Nat × Cap)) : Nat → Option (Nat × Cap)
  | 0 => none
  | n + 1 =>
      match k ((r.take (n + 1)).reverse ++ l) (r.drop (n + 1)) cap with
      | some res => some res
      | none => tryConsume p l r cap k n

end

/-- Try a match of `re` at the current position; returns the number of
characters consumed and the capture. -/
def reMatchAt (re : RE) (l r : List Char) : Option (Nat × Cap) :=
  mtch re l r none (fun l' _ cap => some (l'.length - l.length, cap))

/-- One step of the `re.findall` scan loop at the current position:
`rec` continues the scan.  A non-empty match is emitted and the scan
resumes right after it; an empty match is emitted and the scan moves one
character; on failure the scan moves one character. -/
def scanStep (re : RE) (rec : List Char → List Char → List (List Char × Cap))
    (l r : List Char) : List (List Char × Cap) :=
  match reMatchAt re l r with
  | some nc =>
      if nc.1 = 0 then
        ([], nc.2) :: (match r with
          | [] => []
          | c :: rest => rec (c :: l) rest)
      else
        (r.take nc.1, nc.2) :: rec ((r.take nc.1).reverse ++ l) (r.drop nc.1)
  | none =>
      match r with
      | [] => []
      | c :: rest => rec (c :: l) rest

/-- The scan loop of `re.findall`: try each position left to right.  The
fuel starts at `length + 1`, enough for the whole text. -/
def scanAll (re : RE) : Nat → List Char → List Char → List (List Char × Cap)
  | 0 => fun _ _ => []
  | fuel + 1 => scanStep re (scanAll re fuel)

/-- `re.findall(pattern, s)`.  When the pattern has a capture group
(`hasGrp`), Python returns the group's text instead of the whole match. -/
def reFindAll (re : RE) (hasGrp : Bool) (s : String) : List String :=
  (scanAll re (s.data.length + 1) [] s.data).map fun m =>
    if hasGrp then
      match m.2 with
      | some (a, b) => String.mk ((s.data.drop a).take (b - a))
      | none => ""
    else String.mk m.1

/-! ### Pattern builders -/

/-- Concatenation of a pattern list. -/
def seqs : List RE → RE
  | [] => .eps
  | [r] => r
  | r :: rest => .seq r (seqs rest)

/-- Ordered alternation of a pattern list. -/
def alts : List RE → RE
  | [] => .eps
  | [r] => r
  | r :: rest => .alt r (alts rest)

/-- Greedy `r?`. -/
def opt (r : RE) : RE := .alt r .eps

/-- A case-sensitive literal string. -/
def strLit (s : String) : RE := seqs (s.data.map RE.lit)

/-- A case-insensitive literal string (stored lowercase). -/
def strLitCI (s : String) : RE := seqs (s.data.map RE.litCI)

/-- `[p]{n}` : exactly `n` characters of a class. -/
def repExact (p : Char → Bool) : Nat → RE
  | 0 => .eps
  | n + 1 => .seq (.cls p) (repExact p n)

/-- `[p]{0,n}` : greedily up to `n` characters of a class. -/
def optChain (p : Char → Bool) : Nat → RE
  | 0 => .eps
  | n + 1 => .alt (.seq (.cls p) (optChain p n)) .eps

/-- `[p]{m,n}` : greedy counted repetition. -/
def repRange (p : Char → Bool) (m n : Nat) : RE :=
  .seq (repExact p m) (optChain p (n - m))

/-- `[p]{m,}` : at least `m`, greedy and unbounded. -/
def atLeast (p : Char → Bool) (m : Nat) : RE :=
  .seq (repExact p m) (.starCls p)

/-! ### The extractor's patterns (`src/extractor.py` lines 16–71)

Each Lean pattern is a direct transliteration of one Python regex; the
comments quote the original. -/

/-- `[\s\-]` : space-or-dash separator class. -/
def sepC (c : Char) : Bool := isSpaceC c || c = '-'

/-- `[6-9]` : first digit of an Indian mobile number. -/
def indianFirstC (c : Char) : Bool := '6' ≤ c && c ≤ '9'

/-- `[a-zA-Z0-9._%+\-]` : the email local-part class. -/
def emailLocalC (c : Char) : Bool :=
  isAlnumC c || c = '.' || c = '_' || c = '%' || c = '+' || c = '-'

/-- `[a-zA-Z0-9.\-]` : the email domain class. -/
def emailDomC (c : Char) : Bool := isAlnumC c || c = '.' || c = '-'

/-- `[a-zA-Z0-9.\-_+]` : the UPI local-part class. -/
def upiLocalC (c : Char) : Bool :=
  isAlnumC c || c = '.' || c = '-' || c = '_' || c = '+'

/-- `[^\s'"<>]` : URL body class. -/
def urlC (c : Char) : Bool :=
  !(isSpaceC c || c = '\'' || c = '"' || c = '<' || c = '>')

/-- `[^\s]` : any non-whitespace. -/
def notSpaceC (c : Char) : Bool := !isSpaceC c

/-- `[A-Z0-9]` under `re.IGNORECASE` : letters of either case or digits. -/
def idHeadC (c : Char) : Bool := isAlnumC c

/-- `[A-Z0-9\-]` under `re.IGNORECASE`. -/
def idBodyC (c : Char) : Bool := isAlnumC c || c = '-'

/-- `[:\-]`. -/
def colonDashC (c : Char) : Bool := c = ':' || c = '-'

/-- `PHONE_PATTERNS[0]` : `\+91[\s\-]?\d{5}[\s\-]?\d{5}`. -/
def phonePat1 : RE :=
  seqs [.lit '+', .lit '9', .lit '1', opt (.cls sepC), repExact isDigitC 5,
        opt (.cls sepC), repExact isDigitC 5]

/-- `PHONE_PATTERNS[1]` : `\b91[\s\-]?\d{5}[\s\-]?\d{5}\b`. -/
def phonePat2 : RE :=
  seqs [.wordB, .lit '9', .lit '1', opt (.cls sepC), repExact isDigitC 5,
        opt (.cls sepC), repExact isDigitC 5, .wordB]

/-- `PHONE_PATTERNS[2]` : `\b0\d{10}\b`. -/
def phonePat3 : RE :=
  seqs [.wordB, .lit '0', repExact isDigitC 10, .wordB]

/-- `PHONE_PATTERNS[3]` : `\b[6-9]\d{9}\b`. -/
def phonePat4 : RE :=
  seqs [.wordB, .cls indianFirstC, repExact isDigitC 9, .wordB]

/-- `PHONE_PATTERNS[4]` :
`\+\d{1,3}[\s\-]?\(?\d{1,4}\)?[\s\-]?\d{3,5}[\s\-]?\d{4,6}`. -/
def phonePat5 : RE :=
  seqs [.lit '+', repRange isDigitC 1 3, opt (.cls sepC), opt (.lit '('),
        repRange isDigitC 1 4, opt (.lit ')'), opt (.cls sepC),
        repRange isDigitC 3 5, opt (.cls sepC), repRange isDigitC 4 6]

/-- `PHONE_PATTERNS`, in source order. -/
def phonePats : List RE := [phonePat1, phonePat2, phonePat3, phonePat4, phonePat5]

/-- `BANK_ACCOUNT_PATTERNS[0]` : `\b\d{9,18}\b`. -/
def bankPat : RE := seqs [.wordB, repRange isDigitC 9 18, .wordB]

/-- `EMAIL_PATTERNS[0]` : `[a-zA-Z0-9._%+\-]+@[a-zA-Z0-9.\-]+\.[a-zA-Z]{2,}`. -/
def emailPat : RE :=
  seqs [.plusCls emailLocalC, .lit '@', .plusCls emailDomC, .lit '.',
        atLeast isAlphaC 2]

/-- `UPI_PATTERNS[0]` : `[a-zA-Z0-9.\-_+]+@[a-zA-Z0-9]+\b(?!\.[a-zA-Z])`. -/
def upiPat : RE :=
  seqs [.plusCls upiLocalC, .lit '@', .plusCls isAlnumC, .wordB,
        .nla (.seq (.lit '.') (.cls isAlphaC))]

/-- `PHISHING_PATTERNS[0]` : `https?://[^\s'"<>]+`. -/
def phishPat1 : RE :=
  seqs [strLit "http", opt (.lit 's'), strLit "://", .plusCls urlC]

/-- `PHISHING_PATTERNS[1]` : `www\.[^\s'"<>]+\.[a-z]{2,6}(?:/[^\s]*)?`. -/
def phishPat2 : RE :=
  seqs [strLit "www.", .plusCls urlC, .lit '.', repRange isLowerAlphaC 2 6,
        opt (.seq (.lit '/') (.starCls notSpaceC))]

/-- `PHISHING_PATTERNS[2]` : `bit\.ly/[^\s]+`. -/
def phishPat3 : RE := seqs [strLit "bit.ly/", .plusCls notSpaceC]

/-- `PHISHING_PATTERNS[3]` : `tinyurl\.com/[^\s]+`. -/
def phishPat4 : RE := seqs [strLit "tinyurl.com/", .plusCls notSpaceC]

/-- `PHISHING_PATTERNS`, in source order. -/
def phishPats : List RE := [phishPat1, phishPat2, phishPat3, phishPat4]

/-- The `(?:no\.?|number|#|:)` connective of the contextual ID patterns,
with an optional extra token (`id` for orders); matched case-insensitively. -/
def idConnective (extra : List RE) : RE :=
  alts ([.seq (strLitCI "no") (opt (.lit '.')), strLitCI "number"] ++ extra ++
        [.lit '#', .lit ':'])

/-- `\s*(?:no\.?|number|…|#|:)\s*[:\-]?\s*` followed by the captured value
`([A-Za-z0-9][A-Za-z0-9\-]{3,24})\b` — the shared tail of the contextual
case/policy/order patterns. -/
def idContextTail (extra : List RE) : RE :=
  seqs [.starCls isSpaceC, idConnective extra, .starCls isSpaceC,
        opt (.cls colonDashC), .starCls isSpaceC,
        .grp (.seq (.cls idHeadC) (repRange idBodyC 3 24)), .wordB]

/-- `CASE_ID_PATTERNS[0]` (IGNORECASE) :
`\b(?:REF|ITA|SBI|RBI|FPC|JIO|CASE|TKT|CMP|TXN|FIR|CR)[\-]?[A-Z0-9][A-Z0-9\-]{2,24}\b`. -/
def casePat1 : RE :=
  seqs [.wordB,
        alts [strLitCI "ref", strLitCI "ita", strLitCI "sbi", strLitCI "rbi",
              strLitCI "fpc", strLitCI "jio", strLitCI "case", strLitCI "tkt",
              strLitCI "cmp", strLitCI "txn", strLitCI "fir", strLitCI "cr"],
        opt (.lit '-'), .cls idHeadC, repRange idBodyC 2 24, .wordB]

/-- `CASE_ID_PATTERNS[1]` (IGNORECASE, one group) :
`\b(?:case|ref|reference|ticket|complaint)\s*(?:no\.?|number|#|:)\s*[:\-]?\s*([A-Za-z0-9][A-Za-z0-9\-]{3,24})\b`. -/
def casePat2 : RE :=
  .seq (.seq .wordB
    (alts [strLitCI "case", strLitCI "ref", strLitCI "reference",
           strLitCI "ticket", strLitCI "complaint"]))
    (idContextTail [])

/-- `POLICY_NUMBER_PATTERNS[0]` (IGNORECASE) :
`\b(?:LIC|POL|INS)[\-][A-Z0-9][A-Z0-9\-]{3,24}\b`. -/
def policyPat1 : RE :=
  seqs [.wordB, alts [strLitCI "lic", strLitCI "pol", strLitCI "ins"],
        .lit '-', .cls idHeadC, repRange idBodyC 3 24, .wordB]

/-- `POLICY_NUMBER_PATTERNS[1]` (IGNORECASE, one group) :
`\bpolicy\s*(?:no\.?|number|#|:)\s*[:\-]?\s*#?\s*([A-Za-z0-9][A-Za-z0-9\-]{3,24})\b`.
Its extra `#?\s*` sits between the shared connective tail's `[:\-]?\s*`
and the group, so it is written out in full here. -/
def policyPat2 : RE :=
  seqs [.wordB, strLitCI "policy", .starCls isSpaceC, idConnective [],
        .starCls isSpaceC, opt (.cls colonDashC), .starCls isSpaceC,
        opt (.lit '#'), .starCls isSpaceC,
        .grp (.seq (.cls idHeadC) (repRange idBodyC 3 24)), .wordB]

/-- `ORDER_NUMBER_PATTERNS[0]` (IGNORECASE) :
`\b(?:IND|ORD|PKG|AWB|TRACK)[\-][A-Z0-9][A-Z0-9\-]{3,24}\b`. -/
def orderPat1 : RE :=
  seqs [.wordB,
        alts [strLitCI "ind", strLitCI "ord", strLitCI "pkg", strLitCI "awb",
              strLitCI "track"],
        .lit '-', .cls idHeadC, repRange idBodyC 3 24, .wordB]

/-- `ORDER_NUMBER_PATTERNS[1]` (IGNORECASE, one group) :
`\b(?:order|tracking)\s*(?:no\.?|number|id|#|:)\s*[:\-]?\s*([A-Za-z0-9][A-Za-z0-9\-]{3,24})\b`. -/
def orderPat2 : RE :=
  .seq (.seq .wordB (alts [strLitCI "order", strLitCI "tracking"]))
    (idContextTail [strLitCI "id"])

/-! ### The extractor pipeline (`src/extractor.py` lines 74–393) -/

/-- `_JUNK_ID_WORDS` (a set; only membership is used). -/
def junkIdWords : List String :=
  ["number", "entity", "erence", "where", "scammer", "fraud", "secure",
   "verify", "update", "payment", "account", "process", "portal",
   "claim", "apply", "check", "track", "status", "online",
   "please", "immediately", "department", "officer", "customer",
   "bank", "helpline", "support", "service", "compliance"]

/-- `SUSPICIOUS_KEYWORDS`, in source order. -/
def suspiciousKeywordList : List String :=
  ["urgent", "verify", "blocked", "suspended", "otp", "kyc", "account",
   "immediately", "verify now", "confirm", "click here", "claim",
   "reward", "prize", "lottery", "won", "refund", "tax", "customs",
   "parcel", "delivery", "pending", "overdue", "arrest", "police",
   "legal action", "cancel", "expire", "limited time", "act now"]

/-- `_UPI_HANDLES` (a set; only membership is used). -/
def upiHandles : List String :=
  ["upi", "ybl", "oksbi", "okhdfcbank", "okicici", "okaxis",
   "paytm", "gpay", "phonepe", "freecharge", "ibl", "axl",
   "apl", "waicici", "waaxis", "wahdfcbank", "wasbi", "rbl",
   "kotak", "federal", "sbi", "imobile", "hsbc", "sc",
   "fakebank", "fakeupi"]

/-- `_normalize_phone` : digits only, trailing ten when at least ten. -/
def normalizePhone (phone : String) : String :=
  let digits := digitsOf phone
  if 10 ≤ digits.length then String.mk (lastTen digits) else String.mk digits

/-- The loop of `_dedupe_sorted`: `seen` holds the lowercased keys already
emitted, `acc` the output so far (reversed). -/
def dedupeSortedAux : List String → List String → List String → List String
  | [], _, acc => acc.reverse
  | item :: rest, seen, acc =>
      let norm := pyStrip item
      if norm ≠ "" && !(seen.contains (lowerStr norm)) then
        dedupeSortedAux rest (lowerStr norm :: seen) (norm :: acc)
      else dedupeSortedAux rest seen acc

/-- `_dedupe_sorted` : order-preserving, case-insensitive dedup of the
stripped items. -/
def dedupeSorted (items : List String) : List String := dedupeSortedAux items [] []

/-- Ordered-dict lookup for `_dedupe_phones`. -/
def lookupA (k : String) : List (String × String) → Option String
  | [] => none
  | (k', v) :: rest => if k' = k then some v else lookupA k rest

/-- Ordered-dict value update (key position kept, as in a Python dict). -/
def updateA (k v : String) : List (String × String) → List (String × String)
  | [] => []
  | (k', v') :: rest =>
      if k' = k then (k', v) :: rest else (k', v') :: updateA k v rest

/-- The loop of `_dedupe_phones` over an insertion-ordered `norm → phone`
dict: a longer literal replaces the stored one for the same normalized
number. -/
def dedupePhonesAux : List String → List (String × String) → List (String × String)
  | [], seen => seen
  | phone :: rest, seen =>
      let norm := normalizePhone phone
      if norm = "" then dedupePhonesAux rest seen
      else
        match lookupA norm seen with
        | none => dedupePhonesAux rest (seen ++ [(norm, pyStrip phone)])
        | some old =>
            if old.length < phone.length then
              dedupePhonesAux rest (updateA norm (pyStrip phone) seen)
            else dedupePhonesAux rest seen

/-- `_dedupe_phones` : dedup by `_normalize_phone`, keeping the longest
literal for each normalized number, in first-seen order. -/
def dedupePhones (phones : List String) : List String :=
  (dedupePhonesAux phones []).map (·.2)

/-- The characters stripped by `_clean_url` (`url.rstrip('.,;:!?)\'"]')`). -/
def cleanUrlStripC (c : Char) : Bool :=
  c = '.' || c = ',' || c = ';' || c = ':' || c = '!' || c = '?' ||
  c = ')' || c = '\'' || c = '"' || c = ']'

/-- `_clean_url` : strip trailing punctuation. -/
def cleanUrl (url : String) : String :=
  String.mk (url.data.reverse.dropWhile cleanUrlStripC).reverse

/-- `_has_tld` : `re.search(r'\.[a-zA-Z]{2,}$', domain)` — the maximal
trailing letter run has length at least two and a dot right before it. -/
def hasTld (domain : String) : Bool :=
  let rev := domain.data.reverse
  let run := rev.takeWhile isAlphaC
  decide (2 ≤ run.length) && ((rev.drop run.length).head? == some '.')

/-- `_is_likely_upi` : an `@`-value is UPI exactly when its domain (the
part after the first `@`, lowercased) has no TLD; a known handle and an
unknown bare handle are both accepted. -/
def isLikelyUpi (value : String) : Bool :=
  if !(substrIn "@" value) then false
  else
    let domain := lowerStr (String.mk (afterFirstAt value.data))
    if hasTld domain then false
    else if upiHandles.contains domain then true
    else true

/-- `_is_likely_bank_account` : 9–18 digits, not 13 (epoch-millisecond
timestamps).  The source's `context` parameter is unused there and
dropped here. -/
def isLikelyBankAccount (value : String) : Bool :=
  let digits := digitsOf value
  if digits.length < 9 || 18 < digits.length then false
  else if digits.length = 13 then false
  else true

/-- `[/:.?&=#]` : the separator class of the URL-fragment split. -/
def urlPartC (c : Char) : Bool :=
  c = '/' || c = ':' || c = '.' || c = '?' || c = '&' || c = '=' || c = '#'

/-- `[@.]` : the separator class of the email/UPI-fragment split. -/
def emailPartC (c : Char) : Bool := c = '@' || c = '.'

/-- The loop of `re.split(r'[cls]+', s)` : a maximal separator run is one
split point; leading/trailing runs leave empty pieces. -/
def splitClassAux (p : Char → Bool) : Nat → List Char → List (List Char)
  | 0, l => [l]
  | fuel + 1, l =>
      let seg := l.takeWhile (fun c => !p c)
      let rest := l.drop seg.length
      match rest with
      | [] => [seg]
      | _ :: _ => seg :: splitClassAux p fuel (rest.dropWhile p)

/-- `re.split` on a one-class-run separator pattern. -/
def splitClass (p : Char → Bool) (s : String) : List String :=
  (splitClassAux p s.data.length s.data).map String.mk

/-- `_is_valid_id` : at least 4 characters once stripped, contains a
digit, not a junk word, not a URL/email/UPI fragment, not a pure numeric
run of phone/account length. -/
def isValidId (urlEmailParts : List String) (value : String) : Bool :=
  let v := pyStrip value
  if v.length < 4 then false
  else if !(v.data.any isDigitC) then false
  else if junkIdWords.contains (lowerStr v) then false
  else if urlEmailParts.contains (lowerStr v) then false
  else if (!v.data.isEmpty && v.data.all isDigitC) && 9 ≤ v.length then false
  else true

/-- `models.ExtractedIntelligence` : the named entity sets. -/
structure ExtractedIntelligence where
  phoneNumbers : List String := []
  bankAccounts : List String := []
  upiIds : List String := []
  phishingLinks : List String := []
  emailAddresses : List String := []
  caseIds : List String := []
  policyNumbers : List String := []
  orderNumbers : List String := []
  suspiciousKeywords : List String := []
deriving Repr, DecidableEq

/-- `extract_intelligence` : run every pattern family over the joined
text, apply the category-specific filters and dedup. -/
def extractIntelligence (texts : List String) : ExtractedIntelligence :=
  let fullText := String.intercalate " " texts
  -- phones
  let phones := phonePats.flatMap (fun pat => reFindAll pat false fullText)
  -- emails first (strict TLD pattern)
  let emailAddresses := reFindAll emailPat false fullText
  let emailSet := emailAddresses.map lowerStr
  -- UPI ids: the broad @-pattern, minus known emails, filtered by `_is_likely_upi`
  let rawAtValues := reFindAll upiPat false fullText
  let upiIds :=
    (rawAtValues.filter (fun v => !(emailSet.contains (lowerStr v)))).filter isLikelyUpi
  -- bank accounts, excluding phone-number digits
  let phoneDigitSet := phones.map normalizePhone
  let bankAccounts := (reFindAll bankPat false fullText).filter (fun c =>
    let digits := digitsOf c
    !(phoneDigitSet.contains (String.mk (lastTen digits))) && isLikelyBankAccount c)
  -- phishing links
  let phishingLinks :=
    phishPats.flatMap (fun pat => (reFindAll pat false fullText).map cleanUrl)
  -- URL/email/UPI fragments excluded from ID extraction
  let urlEmailParts :=
    phishingLinks.flatMap (fun link => splitClass urlPartC (lowerStr link)) ++
    emailAddresses.flatMap (fun e => splitClass emailPartC (lowerStr e)) ++
    upiIds.flatMap (fun u => splitClass emailPartC (lowerStr u))
  -- case / reference ids
  let caseIds :=
    ((reFindAll casePat1 false fullText).filter (isValidId urlEmailParts)).map pyStrip ++
    ((reFindAll casePat2 true fullText).filter (isValidId urlEmailParts)).map pyStrip
  -- policy numbers
  let policyNumbers :=
    ((reFindAll policyPat1 false fullText).filter (isValidId urlEmailParts)).map pyStrip ++
    ((reFindAll policyPat2 true fullText).filter (isValidId urlEmailParts)).map pyStrip
  -- order / tracking numbers
  let orderNumbers :=
    ((reFindAll orderPat1 false fullText).filter (isValidId urlEmailParts)).map pyStrip ++
    ((reFindAll orderPat2 true fullText).filter (isValidId urlEmailParts)).map pyStrip
  -- suspicious keywords
  let keywordsFound := suspiciousKeywordList.filter (fun kw => substrIn kw (lowerStr fullText))
  { phoneNumbers := dedupePhones phones
    bankAccounts := dedupeSorted bankAccounts
    upiIds := dedupeSorted upiIds
    phishingLinks := dedupeSorted phishingLinks
    emailAddresses := dedupeSorted emailAddresses
    caseIds := dedupeSorted caseIds
    policyNumbers := dedupeSorted policyNumbers
    orderNumbers := dedupeSorted orderNumbers
    suspiciousKeywords := dedupeSorted keywordsFound }

/-! ### Matcher metatheory

`RMatch re w` : the text `w` can be consumed by `re` (boundary and
lookahead side conditions erased — they consume nothing).  `mtch_sound`
says every successful run of the backtracking matcher consumes a prefix
satisfying `RMatch`; it is the only fact about matches the later proofs
need. -/

inductive RMatch : RE → List Char → Prop where
  | eps : RMatch .eps []
  | cls {p : Char → Bool} {c : Char} : p c = true → RMatch (.cls p) [c]
  | lit {c : Char} : RMatch (.lit c) [c]
  | litCI {c d : Char} : asciiLower d = c → RMatch (.litCI c) [d]
  | seq {r1 r2 : RE} {w1 w2 : List Char} :
      RMatch r1 w1 → RMatch r2 w2 → RMatch (.seq r1 r2) (w1 ++ w2)
  | altL {r1 r2 : RE} {w : List Char} : RMatch r1 w → RMatch (.alt r1 r2) w
  | altR {r1 r2 : RE} {w : List Char} : RMatch r2 w → RMatch (.alt r1 r2) w
  | plusCls {p : Char → Bool} {w : List Char} :
      w ≠ [] → (∀ c ∈ w, p c = true) → RMatch (.plusCls p) w
  | starCls {p : Char → Bool} {w : List Char} :
      (∀ c ∈ w, p c = true) → RMatch (.starCls p) w
  | wordB : RMatch .wordB []
  | nla {r : RE} : RMatch (.nla r) []
  | grp {r : RE} {w : List Char} : RMatch r w → RMatch (.grp r) w

/-- Characters taken from the head of a list within its `takeWhile p`
prefix satisfy `p`. -/
theorem mem_take_of_le_takeWhile {p : Char → Bool} {l : List Char} {n : Nat}
    (hn : n ≤ (l.takeWhile p).length) {c : Char} (hc : c ∈ l.take n) : p c = true := by
  have hpre : l.take n = (l.takeWhile p).take n := by
    conv_lhs => rw [← List.takeWhile_append_dropWhile (p := p) (l := l)]
    exact List.take_append_of_le_length hn
  rw [hpre] at hc
  exact List.mem_takeWhile_imp (List.mem_of_mem_take hc)

/-- Soundness of the greedy class-run helper: success means some
`1 ≤ n ≤ j` characters were consumed before the continuation accepted. -/
theorem tryConsume_sound {p : Char → Bool} {l r : List Char} {cap : Cap}
    {k : List Char → List Char → Cap → Option (Nat × Cap)} {res : Nat × Cap} :
    ∀ {j : Nat}, tryConsume p l r cap k j = some res →
      ∃ n, 1 ≤ n ∧ n ≤ j ∧ k ((r.take n).reverse ++ l) (r.drop n) cap = some res := by
  intro j
  induction j with
  | zero => intro h; simp [tryConsume] at h
  | succ j ih =>
      intro h
      rw [tryConsume] at h
      cases hk : k ((r.take (j + 1)).reverse ++ l) (r.drop (j + 1)) cap with
      | some v =>
          rw [hk] at h
          have h' : some v = some res := h
          exact ⟨j + 1, by omega, le_refl _, by rw [hk]; exact h'⟩
      | none =>
          rw [hk] at h
          obtain ⟨n, h1, h2, h3⟩ := ih h
          exact ⟨n, h1, by omega, h3⟩

/-- Soundness of the backtracking matcher: a successful run consumed a
prefix of the remaining text that `RMatch`es the pattern, and then the
continuation accepted at the advanced position. -/
theorem mtch_sound {r : RE} :
    ∀ {l rt : List Char} {cap : Cap}
      {k : List Char → List Char → Cap → Option (Nat × Cap)} {res : Nat × Cap},
      mtch r l rt cap k = some res →
      ∃ n cap', n ≤ rt.length ∧ RMatch r (rt.take n) ∧
        k ((rt.take n).reverse ++ l) (rt.drop n) cap' = some res := by
  induction r with
  | eps =>
      intro l rt cap k res h
      exact ⟨0, cap, Nat.zero_le _, RMatch.eps, by simpa using h⟩
  | cls p =>
      intro l rt cap k res h
      rw [mtch.eq_def] at h
      dsimp only at h
      split at h
      · exact absurd h (by simp)
      · rename_i c rest
        split at h
        · rename_i hp
          exact ⟨1, cap, by simp, RMatch.cls hp, by simpa using h⟩
        · exact absurd h (by simp)
  | lit c =>
      intro l rt cap k res h
      rw [mtch.eq_def] at h
      dsimp only at h
      split at h
      · exact absurd h (by simp)
      · rename_i c' rest
        split at h
        · rename_i hc
          subst hc
          exact ⟨1, cap, by simp, RMatch.lit, by simpa using h⟩
        · exact absurd h (by simp)
  | litCI c =>
      intro l rt cap k res h
      rw [mtch.eq_def] at h
      dsimp only at h
      split at h
      · exact absurd h (by simp)
      · rename_i c' rest
        split at h
        · rename_i hc
          exact ⟨1, cap, by simp, RMatch.litCI hc, by simpa using h⟩
        · exact absurd h (by simp)
  | seq r1 r2 ih1 ih2 =>
      intro l rt cap k res h
      rw [mtch] at h
      obtain ⟨n1, c1, hn1, hm1, h1⟩ := ih1 h
      obtain ⟨n2, c2, hn2, hm2, h2⟩ := ih2 h1
      refine ⟨n1 + n2, c2, ?_, ?_, ?_⟩
      · rw [List.length_drop] at hn2; omega
      · rw [List.take_add]
        exact RMatch.seq hm1 hm2
      · rw [List.take_add, List.reverse_append, List.append_assoc, ← List.drop_drop]
        exact h2
  | alt r1 r2 ih1 ih2 =>
      intro l rt cap k res h
      rw [mtch] at h
      cases hm : mtch r1 l rt cap k with
      | some v =>
          rw [hm] at h
          obtain ⟨n, c', hn, hr, hk⟩ := ih1 (hm.trans h)
          exact ⟨n, c', hn, RMatch.altL hr, hk⟩
      | none =>
          rw [hm] at h
          obtain ⟨n, c', hn, hr, hk⟩ := ih2 h
          exact ⟨n, c', hn, RMatch.altR hr, hk⟩
  | plusCls p =>
      intro l rt cap k res h
      rw [mtch] at h
      obtain ⟨n, h1, h2, h3⟩ := tryConsume_sound h
      have hsub : (rt.takeWhile p).length ≤ rt.length :=
        List.Sublist.length_le (List.takeWhile_sublist _)
      refine ⟨n, cap, le_trans h2 hsub, RMatch.plusCls ?_ ?_, h3⟩
      · intro hemp
        have hlen := congrArg List.length hemp
        rw [List.length_take] at hlen
        simp only [List.length_nil] at hlen
        omega
      · intro c hc
        exact mem_take_of_le_takeWhile h2 hc
  | starCls p =>
      intro l rt cap k res h
      rw [mtch] at h
      cases htc : tryConsume p l rt cap k (rt.takeWhile p).length with
      | some v =>
          rw [htc] at h
          have h' : some v = some res := h
          obtain ⟨n, h1, h2, h3⟩ := tryConsume_sound (htc.trans h')
          have hsub : (rt.takeWhile p).length ≤ rt.length :=
            List.Sublist.length_le (List.takeWhile_sublist _)
          refine ⟨n, cap, le_trans h2 hsub, RMatch.starCls ?_, h3⟩
          intro c hc
          exact mem_take_of_le_takeWhile h2 hc
      | none =>
          rw [htc] at h
          exact ⟨0, cap, Nat.zero_le _, RMatch.starCls (by simp), by simpa using h⟩
  | wordB =>
      intro l rt cap k res h
      rw [mtch] at h
      by_cases hb : atBoundary l.head? rt.head?
      · rw [if_pos hb] at h
        exact ⟨0, cap, Nat.zero_le _, RMatch.wordB, by simpa using h⟩
      · rw [if_neg hb] at h; exact absurd h (by simp)
  | nla r1 ih =>
      intro l rt cap k res h
      rw [mtch] at h
      cases hm : mtch r1 l rt cap (fun l' _ cap' => some (l'.length, cap')) with
      | some v => rw [hm] at h; exact absurd h (by simp)
      | none =>
          rw [hm] at h
          exact ⟨0, cap, Nat.zero_le _, RMatch.nla, by simpa using h⟩
  | grp r1 ih =>
      intro l rt cap k res h
      rw [mtch] at h
      obtain ⟨n, c', hn, hr, hk⟩ := ih h
      exact ⟨n, some (l.length, ((rt.take n).reverse ++ l).length), hn, RMatch.grp hr, hk⟩

/-- A successful match attempt at one position consumes an `RMatch`-ing
prefix of the remaining text. -/
theorem reMatchAt_sound {re : RE} {l r : List Char} {n : Nat} {cap : Cap}
    (h : reMatchAt re l r = some (n, cap)) : n ≤ r.length ∧ RMatch re (r.take n) := by
  rw [reMatchAt] at h
  obtain ⟨n', cap', hn, hr, hk⟩ := mtch_sound h
  have hlen : ((r.take n').reverse ++ l).length = n' + l.length := by
    rw [List.length_append, List.length_reverse, List.length_take]
    omega
  rw [hlen] at hk
  have hpair : (n' + l.length - l.length, cap') = (n, cap) := Option.some.inj hk
  have hn' : n' = n := by
    have := congrArg Prod.fst hpair
    simpa using this
  exact ⟨hn' ▸ hn, hn' ▸ hr⟩

/-- Every text emitted by the scan loop is a match of the pattern. -/
theorem scanAll_sound {re : RE} :
    ∀ {fuel : Nat} {l r t : List Char} {cap : Cap},
      (t, cap) ∈ scanAll re fuel l r → RMatch re t := by
  intro fuel
  induction fuel with
  | zero => intro l r t cap h; simp [scanAll] at h
  | succ fuel ih =>
      intro l r t cap h
      rw [scanAll, scanStep.eq_def] at h
      cases hm : reMatchAt re l r with
      | some v =>
          obtain ⟨n, cap0⟩ := v
          rw [hm] at h
          dsimp only at h
          have hsound := reMatchAt_sound hm
          by_cases hz : n = 0
          · subst hz
            rw [if_pos rfl] at h
            rcases List.mem_cons.mp h with h1 | h1
            · have ht : t = [] := congrArg Prod.fst h1
              exact ht ▸ hsound.2
            · cases r with
              | nil => simp at h1
              | cons c rest => exact ih h1
          · rw [if_neg hz] at h
            rcases List.mem_cons.mp h with h1 | h1
            · have ht : t = r.take n := congrArg Prod.fst h1
              exact ht ▸ hsound.2
            · exact ih h1
      | none =>
          rw [hm] at h
          dsimp only at h
          cases r with
          | nil => simp at h
          | cons c rest => exact ih h

/-- Every string returned by a groupless `findall` is a match of the
pattern. -/
theorem reFindAll_sound {re : RE} {s t : String} (h : t ∈ reFindAll re false s) :
    ∃ w, t = String.mk w ∧ RMatch re w := by
  rw [reFindAll] at h
  obtain ⟨m, hm, hmap⟩ := List.mem_map.mp h
  exact ⟨m.1, hmap.symm, scanAll_sound (by simpa using hm)⟩

/-! ### Shape of the pattern matches used by the claims -/

/-- `[p]{n}` matches exactly `n` characters of the class. -/
theorem repExact_rmatch {p : Char → Bool} :
    ∀ {n : Nat} {w : List Char}, RMatch (repExact p n) w →
      w.length = n ∧ ∀ c ∈ w, p c = true := by
  intro n
  induction n with
  | zero =>
      intro w h
      rw [repExact] at h
      cases h
      simp
  | succ n ih =>
      intro w h
      rw [repExact] at h
      cases h with
      | seq h1 h2 =>
          cases h1 with
          | cls hp =>
              obtain ⟨hl, hc⟩ := ih h2
              refine ⟨by simp [hl], ?_⟩
              intro c hc'
              rcases List.mem_cons.mp hc' with rfl | hmem
              · exact hp
              · exact hc c hmem

/-- `[p]{0,n}` matches at most `n` characters of the class. -/
theorem optChain_rmatch {p : Char → Bool} :
    ∀ {n : Nat} {w : List Char}, RMatch (optChain p n) w →
      w.length ≤ n ∧ ∀ c ∈ w, p c = true := by
  intro n
  induction n with
  | zero =>
      intro w h
      rw [optChain] at h
      cases h
      simp
  | succ n ih =>
      intro w h
      rw [optChain] at h
      cases h with
      | altL h1 =>
          cases h1 with
          | seq hc hrest =>
              rename_i w1 w2
              cases hc with
              | cls hp =>
                  obtain ⟨hl, hcs⟩ := ih hrest
                  refine ⟨by simp; omega, ?_⟩
                  intro c hc'
                  rcases List.mem_cons.mp hc' with rfl | hmem
                  · exact hp
                  · exact hcs c hmem
      | altR h1 =>
          cases h1
          simp

/-- `[p]{m,n}` matches between `m` and `n` characters of the class. -/
theorem repRange_rmatch {p : Char → Bool} {m n : Nat} {w : List Char}
    (h : RMatch (repRange p m n) w) :
    m ≤ w.length ∧ w.length ≤ m + (n - m) ∧ ∀ c ∈ w, p c = true := by
  rw [repRange] at h
  cases h with
  | seq h1 h2 =>
      obtain ⟨hl1, hc1⟩ := repExact_rmatch h1
      obtain ⟨hl2, hc2⟩ := optChain_rmatch h2
      refine ⟨by simp [hl1], by simp [hl1]; omega, ?_⟩
      intro c hc
      rcases List.mem_append.mp hc with hm | hm
      · exact hc1 c hm
      · exact hc2 c hm

/-- `[p]{m,}` matches at least `m` characters of the class. -/
theorem atLeast_rmatch {p : Char → Bool} {m : Nat} {w : List Char}
    (h : RMatch (atLeast p m) w) :
    m ≤ w.length ∧ ∀ c ∈ w, p c = true := by
  rw [atLeast] at h
  cases h with
  | seq h1 h2 =>
      obtain ⟨hl1, hc1⟩ := repExact_rmatch h1
      cases h2 with
      | starCls hc2 =>
          refine ⟨by simp [hl1], ?_⟩
          intro c hc
          rcases List.mem_append.mp hc with hm | hm
          · exact hc1 c hm
          · exact hc2 c hm

/-- A nonempty greedy class run. -/
theorem plusCls_rmatch {p : Char → Bool} {w : List Char}
    (h : RMatch (.plusCls p) w) : w ≠ [] ∧ ∀ c ∈ w, p c = true := by
  cases h with
  | plusCls hne hc => exact ⟨hne, hc⟩

/-- Shape of a `\b\d{9,18}\b` match: 9–18 digits. -/
theorem bankPat_shape {w : List Char} (h : RMatch bankPat w) :
    9 ≤ w.length ∧ w.length ≤ 18 ∧ ∀ c ∈ w, isDigitC c = true := by
  have h' : RMatch (.seq .wordB (.seq (repRange isDigitC 9 18) .wordB)) w := h
  cases h' with
  | seq hb hrest =>
      cases hb
      cases hrest with
      | seq hr hb2 =>
          cases hb2
          obtain ⟨h1, h2, h3⟩ := repRange_rmatch hr
          simp only [List.nil_append, List.append_nil]
          exact ⟨h1, by omega, h3⟩

/-- Shape of a UPI-pattern match: a nonempty local part from the UPI
class, one `@`, then a nonempty alphanumeric handle. -/
theorem upiPat_shape {w : List Char} (h : RMatch upiPat w) :
    ∃ a b, w = a ++ '@' :: b ∧ a ≠ [] ∧ b ≠ [] ∧
      (∀ c ∈ a, upiLocalC c = true) ∧ (∀ c ∈ b, isAlnumC c = true) := by
  have h' : RMatch (.seq (.plusCls upiLocalC) (.seq (.lit '@')
      (.seq (.plusCls isAlnumC) (.seq .wordB (.nla (.seq (.lit '.') (.cls isAlphaC))))))) w := h
  cases h' with
  | seq ha hrest =>
      obtain ⟨hane, hac⟩ := plusCls_rmatch ha
      cases hrest with
      | seq hat hrest2 =>
          cases hat
          cases hrest2 with
          | seq hb hrest3 =>
              obtain ⟨hbne, hbc⟩ := plusCls_rmatch hb
              cases hrest3 with
              | seq hwb hnla =>
                  cases hwb
                  cases hnla
                  rename_i a b
                  exact ⟨a, b, by simp, hane, hbne, hac, hbc⟩

/-- Shape of an email-pattern match: nonempty local part, `@`, nonempty
domain part, a dot, then at least two letters. -/
theorem emailPat_shape {w : List Char} (h : RMatch emailPat w) :
    ∃ a b t, w = a ++ '@' :: (b ++ '.' :: t) ∧ a ≠ [] ∧ b ≠ [] ∧ 2 ≤ t.length ∧
      (∀ c ∈ a, emailLocalC c = true) ∧ (∀ c ∈ b, emailDomC c = true) ∧
      (∀ c ∈ t, isAlphaC c = true) := by
  have h' : RMatch (.seq (.plusCls emailLocalC) (.seq (.lit '@')
      (.seq (.plusCls emailDomC) (.seq (.lit '.') (atLeast isAlphaC 2))))) w := h
  cases h' with
  | seq ha hrest =>
      obtain ⟨hane, hac⟩ := plusCls_rmatch ha
      cases hrest with
      | seq hat hrest2 =>
          cases hat
          cases hrest2 with
          | seq hb hrest3 =>
              obtain ⟨hbne, hbc⟩ := plusCls_rmatch hb
              cases hrest3 with
              | seq hdot ht =>
                  cases hdot
                  obtain ⟨htl, htc⟩ := atLeast_rmatch ht
                  rename_i a b t
                  exact ⟨a, b, t, by simp, hane, hbne, htl, hac, hbc, htc⟩

/-! ### ASCII facts -/

/-- A whitespace character is one of the six ASCII blanks. -/
theorem isSpaceC_cases {c : Char} (h : isSpaceC c = true) :
    c = ' ' ∨ c = '\t' ∨ c = '\n' ∨ c = '\x0d' ∨ c = '\x0b' ∨ c = '\x0c' := by
  simp only [isSpaceC, Bool.or_eq_true, decide_eq_true_eq] at h
  tauto

/-- Lowercasing an uppercase letter adds 32 to its code point. -/
theorem asciiLower_toNat_of_upper {c : Char} (h1 : 65 ≤ c.toNat) (h2 : c.toNat ≤ 90) :
    (asciiLower c).toNat = c.toNat + 32 := by
  rw [asciiLower]
  have hc : ('A' ≤ c && c ≤ 'Z') = true := by
    simp only [Bool.and_eq_true, decide_eq_true_eq, Char.le_def]
    exact ⟨h1, h2⟩
  rw [if_pos hc]
  unfold Char.ofNat
  split
  · rfl
  · rename_i hv
    exact absurd (Or.inl (by omega)) hv

/-- Lowercasing fixes every non-uppercase character. -/
theorem asciiLower_of_not_upper {c : Char} (h : ¬(65 ≤ c.toNat ∧ c.toNat ≤ 90)) :
    asciiLower c = c := by
  rw [asciiLower]
  have hc : ('A' ≤ c && c ≤ 'Z') = false := by
    rw [Bool.and_eq_false_iff]
    by_cases h1 : 65 ≤ c.toNat
    · right
      simp only [decide_eq_false_iff_not]
      intro hh
      rw [Char.le_def] at hh
      have h2 : c.toNat ≤ 90 := hh
      exact h ⟨h1, h2⟩
    · left
      simp only [decide_eq_false_iff_not]
      intro hh
      rw [Char.le_def] at hh
      have h2 : 65 ≤ c.toNat := hh
      exact h1 h2
  rw [hc]
  rfl

/-- `isAlphaC` in terms of code points. -/
theorem isAlphaC_iff {c : Char} :
    isAlphaC c = true ↔ (65 ≤ c.toNat ∧ c.toNat ≤ 90) ∨ (97 ≤ c.toNat ∧ c.toNat ≤ 122) := by
  simp only [isAlphaC, Bool.or_eq_true, Bool.and_eq_true, decide_eq_true_eq, Char.le_def]
  constructor
  · rintro (⟨h1, h2⟩ | ⟨h1, h2⟩)
    · exact Or.inr ⟨h1, h2⟩
    · exact Or.inl ⟨h1, h2⟩
  · rintro (⟨h1, h2⟩ | ⟨h1, h2⟩)
    · exact Or.inr ⟨h1, h2⟩
    · exact Or.inl ⟨h1, h2⟩

/-- `isDigitC` in terms of code points. -/
theorem isDigitC_iff {c : Char} :
    isDigitC c = true ↔ 48 ≤ c.toNat ∧ c.toNat ≤ 57 := by
  simp only [isDigitC, Bool.and_eq_true, decide_eq_true_eq, Char.le_def]
  exact Iff.rfl

/-- Lowercasing preserves letters. -/
theorem asciiLower_alpha {c : Char} (h : isAlphaC c = true) :
    isAlphaC (asciiLower c) = true := by
  rcases isAlphaC_iff.mp h with ⟨h1, h2⟩ | ⟨h1, h2⟩
  · have := asciiLower_toNat_of_upper h1 h2
    exact isAlphaC_iff.mpr (Or.inr (by omega))
  · rw [asciiLower_of_not_upper (by omega)]
    exact h

/-- Lowercasing preserves alphanumerics. -/
theorem asciiLower_alnum {c : Char} (h : isAlnumC c = true) :
    isAlnumC (asciiLower c) = true := by
  rcases Bool.or_eq_true _ _ |>.mp h with ha | hd
  · exact Bool.or_eq_true _ _ |>.mpr (Or.inl (asciiLower_alpha ha))
  · have hd' := isDigitC_iff.mp hd
    rw [asciiLower_of_not_upper (by omega)]
    exact h

/-- A lowercased alphanumeric is not a dot. -/
theorem asciiLower_alnum_ne_dot {c : Char} (h : isAlnumC c = true) :
    asciiLower c ≠ '.' := by
  intro heq
  have : (asciiLower c).toNat = 46 := by rw [heq]; rfl
  rcases Bool.or_eq_true _ _ |>.mp h with ha | hd
  · rcases isAlphaC_iff.mp ha with ⟨h1, h2⟩ | ⟨h1, h2⟩
    · rw [asciiLower_toNat_of_upper h1 h2] at this; omega
    · rw [asciiLower_of_not_upper (by omega)] at this; omega
  · have hd' := isDigitC_iff.mp hd
    rw [asciiLower_of_not_upper (by omega)] at this
    omega

/-- Lowercasing fixes the dot. -/
theorem asciiLower_dot : asciiLower '.' = '.' := rfl

/-! ### `hasTld`, `afterFirstAt` and `pyStrip` facts -/

/-- `takeWhile` runs through a fully satisfying prefix and stops at the
first failing element. -/
theorem takeWhile_append_all {p : Char → Bool} :
    ∀ {xs : List Char} {y : Char} {ys : List Char},
      (∀ c ∈ xs, p c = true) → p y = false →
      (xs ++ y :: ys).takeWhile p = xs := by
  intro xs
  induction xs with
  | nil =>
      intro y ys _ hy
      simp [List.takeWhile_cons, hy]
  | cons x xs ih =>
      intro y ys hall hy
      have hx : p x = true := hall x (List.mem_cons_self ..)
      rw [List.cons_append, List.takeWhile_cons, if_pos hx,
        ih (fun c hc => hall c (List.mem_cons_of_mem _ hc)) hy]

/-- A purely alphanumeric string has no TLD (there is no dot to anchor
one). -/
theorem hasTld_all_alnum {l : List Char} (h : ∀ c ∈ l, isAlnumC c = true) :
    hasTld (String.mk l) = false := by
  rw [hasTld]
  simp only [Bool.and_eq_false_iff]
  by_cases hdot :
      ((l.reverse.drop (l.reverse.takeWhile isAlphaC).length).head? == some '.') = true
  · exfalso
    have hmem : '.' ∈ l := by
      have h1 := eq_of_beq hdot
      have h2 : '.' ∈ l.reverse.drop (l.reverse.takeWhile isAlphaC).length :=
        List.mem_of_mem_head? h1
      exact List.mem_reverse.mp (List.drop_subset _ _ h2)
    have := h '.' hmem
    simp [isAlnumC, isAlphaC, isDigitC] at this
  · right
    simpa using hdot

/-- A string of the form `b ++ "." ++ t` with `t` a letter run of length
at least two has a TLD. -/
theorem hasTld_shape {b t : List Char} (ht2 : 2 ≤ t.length)
    (hta : ∀ c ∈ t, isAlphaC c = true) :
    hasTld (String.mk (b ++ '.' :: t)) = true := by
  rw [hasTld]
  have hrev : (b ++ '.' :: t).reverse = t.reverse ++ '.' :: b.reverse := by
    simp
  have hrun : ((b ++ '.' :: t).reverse).takeWhile isAlphaC = t.reverse := by
    rw [hrev]
    exact takeWhile_append_all (fun c hc => hta c (List.mem_reverse.mp hc)) (by decide)
  rw [hrun, hrev]
  have hdrop : (t.reverse ++ '.' :: b.reverse).drop t.reverse.length = '.' :: b.reverse :=
    List.drop_left _ _
  rw [hdrop]
  simp only [List.head?_cons, List.length_reverse]
  rw [Bool.and_eq_true]
  exact ⟨by simpa using ht2, by rfl⟩

/-- `afterFirstAt` of `a ++ "@" ++ b` is `b` when `a` has no `@`. -/
theorem afterFirstAt_append {a b : List Char} (ha : ∀ c ∈ a, c ≠ '@') :
    afterFirstAt (a ++ '@' :: b) = b := by
  rw [afterFirstAt]
  have : (a ++ '@' :: b).dropWhile (· ≠ '@') = '@' :: b := by
    induction a with
    | nil => simp [List.dropWhile_cons]
    | cons x xs ih =>
        have hx : x ≠ '@' := ha x (List.mem_cons_self ..)
        simp only [List.cons_append, List.dropWhile_cons]
        rw [if_pos (by simpa using hx)]
        exact ih (fun c hc => ha c (List.mem_cons_of_mem _ hc))
  rw [this]
  rfl

/-- Stripping a string with no whitespace leaves it unchanged. -/
theorem pyStrip_eq_self {s : String} (h : ∀ c ∈ s.data, isSpaceC c = false) :
    pyStrip s = s := by
  rw [pyStrip]
  have h1 : s.data.dropWhile isSpaceC = s.data := by
    cases hd : s.data with
    | nil => simp
    | cons x xs =>
        rw [List.dropWhile_cons, if_neg]
        rw [h x (by rw [hd]; exact List.mem_cons_self ..)]
        simp
  rw [h1]
  have h2 : s.data.reverse.dropWhile isSpaceC = s.data.reverse := by
    cases hd : s.data.reverse with
    | nil => simp
    | cons x xs =>
        rw [List.dropWhile_cons, if_neg]
        have hx : x ∈ s.data := List.mem_reverse.mp (by rw [hd]; exact List.mem_cons_self ..)
        rw [h x hx]
        simp
  rw [h2, List.reverse_reverse]

/-! ### Dedup membership facts -/

/-- Everything `_dedupe_sorted` emits is a stripped input item. -/
theorem dedupeSortedAux_mem :
    ∀ {items seen acc : List String} {w : String},
      w ∈ dedupeSortedAux items seen acc →
      w ∈ acc.reverse ∨ ∃ v ∈ items, w = pyStrip v := by
  intro items
  induction items with
  | nil =>
      intro seen acc w h
      rw [dedupeSortedAux] at h
      exact Or.inl h
  | cons item rest ih =>
      intro seen acc w h
      rw [dedupeSortedAux] at h
      by_cases hc : pyStrip item ≠ "" && !(seen.contains (lowerStr (pyStrip item)))
      · rw [if_pos hc] at h
        rcases ih h with hacc | ⟨v, hv, hw⟩
        · rw [List.reverse_cons] at hacc
          rcases List.mem_append.mp hacc with h1 | h1
          · exact Or.inl h1
          · refine Or.inr ⟨item, List.mem_cons_self .., ?_⟩
            simpa using h1
        · exact Or.inr ⟨v, List.mem_cons_of_mem _ hv, hw⟩
      · rw [if_neg hc] at h
        rcases ih h with hacc | ⟨v, hv, hw⟩
        · exact Or.inl hacc
        · exact Or.inr ⟨v, List.mem_cons_of_mem _ hv, hw⟩

/-- Everything `_dedupe_sorted` returns is a stripped input item. -/
theorem mem_dedupeSorted {items : List String} {w : String}
    (h : w ∈ dedupeSorted items) : ∃ v ∈ items, w = pyStrip v := by
  rcases dedupeSortedAux_mem h with h1 | h1
  · simp at h1
  · exact h1

/-- An updated ordered dict holds old entries or the new value. -/
theorem updateA_mem {k v : String} :
    ∀ {seen : List (String × String)} {kv : String × String},
      kv ∈ updateA k v seen → kv ∈ seen ∨ kv.2 = v := by
  intro seen
  induction seen with
  | nil => intro kv h; rw [updateA] at h; exact Or.inl h
  | cons e rest ih =>
      intro kv h
      rw [updateA] at h
      by_cases hk : e.1 = k
      · rw [if_pos hk] at h
        rcases List.mem_cons.mp h with h1 | h1
        · exact Or.inr (congrArg Prod.snd h1)
        · exact Or.inl (List.mem_cons_of_mem _ h1)
      · rw [if_neg hk] at h
        rcases List.mem_cons.mp h with h1 | h1
        · exact Or.inl (h1 ▸ List.mem_cons_self ..)
        · rcases ih h1 with h2 | h2
          · exact Or.inl (List.mem_cons_of_mem _ h2)
          · exact Or.inr h2

/-- Every value held by the `_dedupe_phones` dict is a stripped input
phone. -/
theorem dedupePhonesAux_mem :
    ∀ {items : List String} {seen : List (String × String)} {kv : String × String},
      kv ∈ dedupePhonesAux items seen →
      kv ∈ seen ∨ ∃ φ ∈ items, kv.2 = pyStrip φ := by
  intro items
  induction items with
  | nil =>
      intro seen kv h
      rw [dedupePhonesAux] at h
      exact Or.inl h
  | cons phone rest ih =>
      intro seen kv h
      rw [dedupePhonesAux] at h
      by_cases hn : normalizePhone phone = ""
      · rw [if_pos hn] at h
        rcases ih h with h1 | ⟨φ, hφ, he⟩
        · exact Or.inl h1
        · exact Or.inr ⟨φ, List.mem_cons_of_mem _ hφ, he⟩
      · rw [if_neg hn] at h
        cases hl : lookupA (normalizePhone phone) seen with
        | none =>
            rw [hl] at h
            rcases ih h with h1 | ⟨φ, hφ, he⟩
            · rcases List.mem_append.mp h1 with h2 | h2
              · exact Or.inl h2
              · refine Or.inr ⟨phone, List.mem_cons_self .., ?_⟩
                have : kv = (normalizePhone phone, pyStrip phone) := by simpa using h2
                exact congrArg Prod.snd this
            · exact Or.inr ⟨φ, List.mem_cons_of_mem _ hφ, he⟩
        | some old =>
            rw [hl] at h
            dsimp only at h
            by_cases hlen : old.length < phone.length
            · rw [if_pos hlen] at h
              rcases ih h with h1 | ⟨φ, hφ, he⟩
              · rcases updateA_mem h1 with h2 | h2
                · exact Or.inl h2
                · exact Or.inr ⟨phone, List.mem_cons_self .., h2⟩
              · exact Or.inr ⟨φ, List.mem_cons_of_mem _ hφ, he⟩
            · rw [if_neg hlen] at h
              rcases ih h with h1 | ⟨φ, hφ, he⟩
              · exact Or.inl h1
              · exact Or.inr ⟨φ, List.mem_cons_of_mem _ hφ, he⟩

/-- Dropping leading whitespace does not change the digits. -/
theorem filter_digit_dropWhile_space :
    ∀ (l : List Char), (l.dropWhile isSpaceC).filter isDigitC = l.filter isDigitC := by
  intro l
  induction l with
  | nil => simp
  | cons x xs ih =>
      rw [List.dropWhile_cons]
      by_cases hx : isSpaceC x = true
      · rw [if_pos hx, ih, List.filter_cons]
        have hd : isDigitC x = false := by
          rcases isSpaceC_cases hx with rfl | rfl | rfl | rfl | rfl | rfl <;> rfl
        rw [hd]
        simp
      · rw [if_neg hx]

/-- Stripping does not change the digits. -/
theorem digitsOf_pyStrip (s : String) : digitsOf (pyStrip s) = digitsOf s := by
  rw [digitsOf, digitsOf, pyStrip]
  show (((s.data.dropWhile isSpaceC).reverse.dropWhile isSpaceC).reverse).filter isDigitC
      = s.data.filter isDigitC
  rw [List.filter_reverse, filter_digit_dropWhile_space, List.filter_reverse,
    List.reverse_reverse, filter_digit_dropWhile_space]

/-- Stripping does not change the normalized phone form. -/
theorem normalizePhone_pyStrip (s : String) :
    normalizePhone (pyStrip s) = normalizePhone s := by
  rw [normalizePhone, normalizePhone, digitsOf_pyStrip]

/-- Every phone `_dedupe_phones` returns normalizes like some input
phone. -/
theorem mem_dedupePhones {l : List String} {p : String} (h : p ∈ dedupePhones l) :
    ∃ φ ∈ l, normalizePhone p = normalizePhone φ := by
  rw [dedupePhones] at h
  obtain ⟨kv, hkv, hp⟩ := List.mem_map.mp h
  rcases dedupePhonesAux_mem hkv with h1 | ⟨φ, hφ, he⟩
  · simp at h1
  · exact ⟨φ, hφ, by rw [← hp, he, normalizePhone_pyStrip]⟩

/-- Whitespace belongs to none of the token character classes. -/
theorem isSpaceC_classes {c : Char} (h : isSpaceC c = true) :
    upiLocalC c = false ∧ emailLocalC c = false ∧ emailDomC c = false ∧
    isAlphaC c = false ∧ isDigitC c = false ∧ isAlnumC c = false := by
  rcases isSpaceC_cases h with rfl | rfl | rfl | rfl | rfl | rfl <;> decide

/-- A one-character string is a substring exactly when the character
occurs. -/
theorem listInfixOf_singleton {c : Char} :
    ∀ {l : List Char}, c ∈ l → listInfixOf [c] l = true := by
  intro l
  induction l with
  | nil => intro h; simp at h
  | cons x xs ih =>
      intro h
      rw [listInfixOf]
      rcases List.mem_cons.mp h with rfl | hmem
      · have : listPrefixOf [c] (c :: xs) = true := by
          rw [listPrefixOf]
          simp [listPrefixOf]
        rw [this]
        simp
      · rw [ih hmem]
        simp

/-! ### Classification of the extractor's UPI / email / bank outputs -/

/-- The UPI local-part class has no `@`. -/
theorem upiLocalC_ne_at {c : Char} (h : upiLocalC c = true) : c ≠ '@' := by
  intro heq
  subst heq
  exact absurd h (by decide)

/-- The email local-part class has no `@`. -/
theorem emailLocalC_ne_at {c : Char} (h : emailLocalC c = true) : c ≠ '@' := by
  intro heq
  subst heq
  exact absurd h (by decide)

/-- The joined conversation text of `extract_intelligence`. -/
def joinedText (texts : List String) : String := String.intercalate " " texts

/-- The raw (pre-dedup) UPI candidate list of the pipeline. -/
def upiPreList (texts : List String) : List String :=
  ((reFindAll upiPat false (joinedText texts)).filter
    (fun v => !(((reFindAll emailPat false (joinedText texts)).map lowerStr).contains
      (lowerStr v)))).filter isLikelyUpi

/-- The `upiIds` field is the deduped raw UPI candidate list. -/
theorem upiIds_eq (texts : List String) :
    (extractIntelligence texts).upiIds = dedupeSorted (upiPreList texts) := rfl

/-- The `emailAddresses` field is the deduped email `findall`. -/
theorem emails_eq (texts : List String) :
    (extractIntelligence texts).emailAddresses =
      dedupeSorted (reFindAll emailPat false (joinedText texts)) := rfl

/-- Every UPI id the extractor returns has a TLD-free domain: the part
after its first `@` is a bare alphanumeric handle. -/
theorem upi_output_hasTld {texts : List String} {v : String}
    (h : v ∈ (extractIntelligence texts).upiIds) :
    hasTld (lowerStr (String.mk (afterFirstAt v.data))) = false := by
  rw [upiIds_eq] at h
  obtain ⟨u, hu, hv⟩ := mem_dedupeSorted h
  have hu2 := List.mem_filter.mp hu
  have hu3 := List.mem_filter.mp hu2.1
  obtain ⟨w, huw, hmatch⟩ := reFindAll_sound hu3.1
  obtain ⟨a, b, hw, hane, hbne, hac, hbc⟩ := upiPat_shape hmatch
  have hns : ∀ c ∈ w, isSpaceC c = false := by
    intro c hc
    rw [hw] at hc
    cases hsp : isSpaceC c
    · rfl
    · exfalso
      rcases List.mem_append.mp hc with hca | hcb
      · exact absurd (hac c hca) (by rw [(isSpaceC_classes hsp).1]; simp)
      · rcases List.mem_cons.mp hcb with rfl | hcb'
        · exact absurd hsp (by decide)
        · exact absurd (hbc c hcb') (by rw [(isSpaceC_classes hsp).2.2.2.2.2]; simp)
  have hvu : v = u := by
    rw [hv, huw]
    exact pyStrip_eq_self hns
  have hvdata : v.data = a ++ '@' :: b := by rw [hvu, huw, hw]
  rw [hvdata, afterFirstAt_append (fun c hc => upiLocalC_ne_at (hac c hc))]
  have : lowerStr (String.mk b) = String.mk (b.map asciiLower) := rfl
  rw [this]
  refine hasTld_all_alnum ?_
  intro c hc
  obtain ⟨c0, hc0, hlc⟩ := List.mem_map.mp hc
  exact hlc ▸ asciiLower_alnum (hbc c0 hc0)

/-- Every email address the extractor returns has a TLD: the part after
its first `@` ends in a dot followed by at least two letters. -/
theorem email_output_hasTld {texts : List String} {v : String}
    (h : v ∈ (extractIntelligence texts).emailAddresses) :
    hasTld (lowerStr (String.mk (afterFirstAt v.data))) = true := by
  rw [emails_eq] at h
  obtain ⟨u, hu, hv⟩ := mem_dedupeSorted h
  obtain ⟨w, huw, hmatch⟩ := reFindAll_sound hu
  obtain ⟨a, b, t, hw, hane, hbne, ht2, hac, hbc, htc⟩ := emailPat_shape hmatch
  have hns : ∀ c ∈ w, isSpaceC c = false := by
    intro c hc
    rw [hw] at hc
    cases hsp : isSpaceC c
    · rfl
    · exfalso
      rcases List.mem_append.mp hc with hca | hcb
      · exact absurd (hac c hca) (by rw [(isSpaceC_classes hsp).2.1]; simp)
      · rcases List.mem_cons.mp hcb with rfl | hcb'
        · exact absurd hsp (by decide)
        · rcases List.mem_append.mp hcb' with hcb2 | hcb3
          · exact absurd (hbc c hcb2) (by rw [(isSpaceC_classes hsp).2.2.1]; simp)
          · rcases List.mem_cons.mp hcb3 with rfl | hct
            · exact absurd hsp (by decide)
            · exact absurd (htc c hct) (by rw [(isSpaceC_classes hsp).2.2.2.1]; simp)
  have hvu : v = u := by
    rw [hv, huw]
    exact pyStrip_eq_self hns
  have hvdata : v.data = a ++ '@' :: (b ++ '.' :: t) := by rw [hvu, huw, hw]
  rw [hvdata, afterFirstAt_append (fun c hc => emailLocalC_ne_at (hac c hc))]
  have hmap : lowerStr (String.mk (b ++ '.' :: t)) =
      String.mk (b.map asciiLower ++ '.' :: t.map asciiLower) := by
    rw [lowerStr]
    show String.mk ((b ++ '.' :: t).map asciiLower) = _
    rw [List.map_append, List.map_cons, asciiLower_dot]
  rw [hmap]
  refine hasTld_shape (by rw [List.length_map]; exact ht2) ?_
  intro c hc
  obtain ⟨c0, hc0, hlc⟩ := List.mem_map.mp hc
  exact hlc ▸ asciiLower_alpha (htc c0 hc0)

/-- The raw (pre-dedup) phone match list of the pipeline. -/
def rawPhones (texts : List String) : List String :=
  phonePats.flatMap (fun pat => reFindAll pat false (joinedText texts))

/-- The raw (pre-filter) bank-account candidate filter of the pipeline. -/
def bankPreList (texts : List String) : List String :=
  (reFindAll bankPat false (joinedText texts)).filter (fun c =>
    !(((rawPhones texts).map normalizePhone).contains (String.mk (lastTen (digitsOf c)))) &&
    isLikelyBankAccount c)

/-- The `bankAccounts` field is the deduped filtered bank candidates. -/
theorem bank_eq (texts : List String) :
    (extractIntelligence texts).bankAccounts = dedupeSorted (bankPreList texts) := rfl

/-- The `phoneNumbers` field is the phone-deduped raw phone list. -/
theorem phones_eq (texts : List String) :
    (extractIntelligence texts).phoneNumbers = dedupePhones (rawPhones texts) := rfl

/-- A `contains = false` list misses the element. -/
theorem not_mem_of_contains_false {l : List String} {a : String}
    (h : l.contains a = false) : a ∉ l := by
  intro hm
  have ht : l.contains a = true := List.elem_iff.mpr hm
  rw [ht] at h
  cases h

/-- Every bank account the extractor returns is a 9–18-digit pure run,
not of length 13, whose trailing ten digits differ from every raw phone
match's normalized form. -/
theorem bank_output_props {texts : List String} {v : String}
    (h : v ∈ (extractIntelligence texts).bankAccounts) :
    (∀ c ∈ v.data, isDigitC c = true) ∧ 9 ≤ v.data.length ∧ v.data.length ≤ 18 ∧
    v.data.length ≠ 13 ∧
    String.mk (lastTen v.data) ∉ (rawPhones texts).map normalizePhone := by
  rw [bank_eq] at h
  obtain ⟨u, hu, hv⟩ := mem_dedupeSorted h
  have hu2 := List.mem_filter.mp hu
  obtain ⟨w, huw, hmatch⟩ := reFindAll_sound hu2.1
  obtain ⟨h9, h18, hdig⟩ := bankPat_shape hmatch
  have hns : ∀ c ∈ w, isSpaceC c = false := by
    intro c hc
    cases hsp : isSpaceC c
    · rfl
    · exact absurd (hdig c hc) (by rw [(isSpaceC_classes hsp).2.2.2.2.1]; simp)
  have hvu : v = u := by
    rw [hv, huw]
    exact pyStrip_eq_self hns
  have hvdata : v.data = w := by rw [hvu, huw]
  have hdigits : digitsOf u = u.data := by
    rw [digitsOf, List.filter_eq_self]
    intro c hc
    rw [huw] at hc
    exact hdig c hc
  have hpred := hu2.2
  rw [Bool.and_eq_true] at hpred
  obtain ⟨hcont, hlik⟩ := hpred
  have hcont' : ((rawPhones texts).map normalizePhone).contains
      (String.mk (lastTen (digitsOf u))) = false := by
    cases hc : ((rawPhones texts).map normalizePhone).contains
        (String.mk (lastTen (digitsOf u)))
    · rfl
    · rw [hc] at hcont; cases hcont
  have hnotmem := not_mem_of_contains_false hcont'
  rw [isLikelyBankAccount, hdigits] at hlik
  have hudata : u.data = w := by rw [huw]
  rw [hudata] at hlik hdigits
  have h13 : w.length ≠ 13 := by
    by_cases hlt : w.length < 9 || 18 < w.length
    · rw [if_pos hlt] at hlik; cases hlik
    · rw [if_neg hlt] at hlik
      by_cases h13 : w.length = 13
      · rw [if_pos h13] at hlik; cases hlik
      · exact h13
  rw [hdigits] at hnotmem
  rw [hvdata]
  exact ⟨hdig, h9, h18, h13, hnotmem⟩

/-- Every phone number the extractor returns normalizes like some raw
phone match. -/
theorem phone_output_norm {texts : List String} {p : String}
    (h : p ∈ (extractIntelligence texts).phoneNumbers) :
    ∃ φ ∈ rawPhones texts, normalizePhone p = normalizePhone φ := by
  rw [phones_eq] at h
  exact mem_dedupePhones h

/-! ### Claim theorems for the extraction engine -/

/-- C2: `extract_intelligence` classifies every `local@domain` token into
exactly one of `upiIds` and `emailAddresses`.  Every returned UPI id's
domain (the part after its first `@`, lowercased) has no multi-letter TLD
suffix and the value never also appears among the emails; every returned
email's domain has such a TLD suffix and the value never also appears
among the UPI ids.  Concretely, `name@paytm` is a UPI id and never an
email, `name@bank.com` is an email and never a UPI id, and a bare domain
that is not a known payment-provider handle (`name@unknownhandle`) still
counts as UPI. -/
theorem upi_email_mutual_exclusion :
    (∀ texts : List String, ∀ v ∈ (extractIntelligence texts).upiIds,
      hasTld (lowerStr (String.mk (afterFirstAt v.data))) = false ∧
      v ∉ (extractIntelligence texts).emailAddresses) ∧
    (∀ texts : List String, ∀ e ∈ (extractIntelligence texts).emailAddresses,
      hasTld (lowerStr (String.mk (afterFirstAt e.data))) = true ∧
      e ∉ (extractIntelligence texts).upiIds) ∧
    (extractIntelligence ["name@paytm"]).upiIds = ["name@paytm"] ∧
    (extractIntelligence ["name@paytm"]).emailAddresses = [] ∧
    (extractIntelligence ["name@bank.com"]).emailAddresses = ["name@bank.com"] ∧
    (extractIntelligence ["name@bank.com"]).upiIds = [] ∧
    (extractIntelligence ["name@unknownhandle"]).upiIds = ["name@unknownhandle"] := by
  refine ⟨?_, ?_, by decide, by decide, by decide, by decide, by decide⟩
  · intro texts v hv
    refine ⟨upi_output_hasTld hv, ?_⟩
    intro hmem
    have h1 := upi_output_hasTld hv
    have h2 := email_output_hasTld hmem
    rw [h1] at h2
    cases h2
  · intro texts e he
    refine ⟨email_output_hasTld he, ?_⟩
    intro hmem
    have h1 := upi_output_hasTld hmem
    have h2 := email_output_hasTld he
    rw [h1] at h2
    cases h2

/-- Witness for C2 at a concrete input: `fraud@ybl` is extracted as a UPI
id, its domain is TLD-free, and it is not among the emails. -/
theorem upi_email_mutual_exclusion_witness :
    hasTld (lowerStr (String.mk (afterFirstAt ("fraud@ybl" : String).data))) = false ∧
    ("fraud@ybl" : String) ∉
      (extractIntelligence ["Send money to fraud@ybl now"]).emailAddresses :=
  upi_email_mutual_exclusion.1 ["Send money to fraud@ybl now"] "fraud@ybl" (by decide)

/-- C3: every element of `bankAccounts` is a pure numeric run of 9 to 18
digits whose digit count is not 13 and whose trailing ten digits differ
from the normalized form of every detected phone number; in particular a
10-digit value returned as a phone number never also appears among the
bank accounts. -/
theorem bank_account_constraints :
    (∀ texts : List String, ∀ v ∈ (extractIntelligence texts).bankAccounts,
      (∀ c ∈ v.data, isDigitC c = true) ∧ 9 ≤ v.length ∧ v.length ≤ 18 ∧
      v.length ≠ 13 ∧
      ∀ p ∈ (extractIntelligence texts).phoneNumbers,
        String.mk (lastTen v.data) ≠ normalizePhone p) ∧
    (∀ texts : List String, ∀ p ∈ (extractIntelligence texts).phoneNumbers,
      p.length = 10 → (∀ c ∈ p.data, isDigitC c = true) →
      p ∉ (extractIntelligence texts).bankAccounts) := by
  have main : ∀ texts : List String, ∀ v ∈ (extractIntelligence texts).bankAccounts,
      (∀ c ∈ v.data, isDigitC c = true) ∧ 9 ≤ v.length ∧ v.length ≤ 18 ∧
      v.length ≠ 13 ∧
      ∀ p ∈ (extractIntelligence texts).phoneNumbers,
        String.mk (lastTen v.data) ≠ normalizePhone p := by
    intro texts v hv
    obtain ⟨hdig, h9, h18, h13, hnot⟩ := bank_output_props hv
    refine ⟨hdig, h9, h18, h13, ?_⟩
    intro p hp heq
    obtain ⟨φ, hφ, hnorm⟩ := phone_output_norm hp
    exact hnot (heq ▸ hnorm ▸ List.mem_map_of_mem normalizePhone hφ)
  refine ⟨main, ?_⟩
  intro texts p hp hlen hdig hmem
  obtain ⟨_, _, _, _, hnot⟩ := main texts p hmem
  refine hnot p hp ?_
  have hdata : digitsOf p = p.data := by
    rw [digitsOf, List.filter_eq_self]
    exact hdig
  have hlen' : p.data.length = 10 := hlen
  rw [normalizePhone, hdata, if_pos (by omega)]

/-- Witness for C3 at a concrete input: `123456789` is extracted as a bank
account with the stated properties, and the 10-digit phone `9876543210`
is not among the bank accounts. -/
theorem bank_account_constraints_witness :
    ((∀ c ∈ ("123456789" : String).data, isDigitC c = true) ∧
      9 ≤ ("123456789" : String).length ∧ ("123456789" : String).length ≤ 18 ∧
      ("123456789" : String).length ≠ 13 ∧
      ∀ p ∈ (extractIntelligence ["acc 123456789 call 9876543210"]).phoneNumbers,
        String.mk (lastTen ("123456789" : String).data) ≠ normalizePhone p) ∧
    ("9876543210" : String) ∉
      (extractIntelligence ["acc 123456789 call 9876543210"]).bankAccounts :=
  ⟨bank_account_constraints.1 ["acc 123456789 call 9876543210"] "123456789" (by decide),
   bank_account_constraints.2 ["acc 123456789 call 9876543210"] "9876543210"
     (by decide) rfl (by decide)⟩

/-- C7: `extract_intelligence` is deterministic and idempotent — two calls
on identical input return identical `ExtractedIntelligence` values, with
the same elements in the same order in every category list.  (The Python
function is pure: no randomness, I/O or global mutation; the embedding is
therefore a function and equal inputs give the one computed value.) -/
theorem extract_deterministic :
    ∀ texts1 texts2 : List String, texts1 = texts2 →
      extractIntelligence texts1 = extractIntelligence texts2 ∧
      (extractIntelligence texts1).phoneNumbers = (extractIntelligence texts2).phoneNumbers ∧
      (extractIntelligence texts1).bankAccounts = (extractIntelligence texts2).bankAccounts ∧
      (extractIntelligence texts1).upiIds = (extractIntelligence texts2).upiIds ∧
      (extractIntelligence texts1).phishingLinks = (extractIntelligence texts2).phishingLinks ∧
      (extractIntelligence texts1).emailAddresses = (extractIntelligence texts2).emailAddresses ∧
      (extractIntelligence texts1).caseIds = (extractIntelligence texts2).caseIds ∧
      (extractIntelligence texts1).policyNumbers = (extractIntelligence texts2).policyNumbers ∧
      (extractIntelligence texts1).orderNumbers = (extractIntelligence texts2).orderNumbers ∧
      (extractIntelligence texts1).suspiciousKeywords =
        (extractIntelligence texts2).suspiciousKeywords := by
  intro texts1 texts2 h
  subst h
  exact ⟨rfl, rfl, rfl, rfl, rfl, rfl, rfl, rfl, rfl, rfl⟩

/-- Witness for C7 at a concrete input. -/
theorem extract_deterministic_witness :
    extractIntelligence ["call 9876543210"] = extractIntelligence ["call 9876543210"] :=
  (extract_deterministic ["call 9876543210"] ["call 9876543210"] rfl).1

/-! ### The agent (`src/agent.py`), prompt-builder fallback
(`src/src/prompt_builder.py`), session store (`src/src/session_store.py`)
and routes shell (`src/src/routes.py`)

LLM outcomes and the delivery POST outcome are parameters; conversation
history enters as its list of message texts (`msg.get("text", "")`).
Floats (`confidence_level`, the pacing arithmetic) are modelled as `ℚ`. -/

/-- `models.IntelResponse` : the structured intel-agent output. -/
structure IntelResponse where
  scam_detected : Bool
  scam_type : String
  phone_numbers : List String := []
  bank_accounts : List String := []
  upi_ids : List String := []
  phishing_links : List String := []
  email_addresses : List String := []
  case_ids : List String := []
  policy_numbers : List String := []
  order_numbers : List String := []
  confidence_level : ℚ := 3/4
  agent_note : String := ""
deriving Repr, DecidableEq

/-- `session_store.SessionState` : the per-session mutable state run_agent
updates.  The ordered note log (`agent_notes`) is not modelled — no claim
depends on the note text; `confidence_level` is the attribute `run_agent`
assigns on the session object each turn. -/
structure SessionState where
  turn_count : Nat := 0
  scam_type : String := "bank_fraud"
  scam_detected : Bool := true
  confidence_level : ℚ := 3/4
  intel : ExtractedIntelligence := {}
  callback_sent : Bool := false
  total_messages : Nat := 0
deriving Repr, DecidableEq

/-- `config.Settings.SEND_CALLBACK_AFTER_TURN`. -/
def SEND_CALLBACK_AFTER_TURN : Nat := 9

/-- `config.Settings.MAX_TURNS`. -/
def MAX_TURNS : Nat := 15

/-- `config.Settings.SMART_PACING_ENABLED`. -/
def SMART_PACING_ENABLED : Bool := true

/-- `prompt_builder.SCAM_TYPE_SIGNALS`, in source (insertion) order. -/
def scamTypeSignals : List (String × List String) :=
  [("bank_fraud", ["bank", "account", "otp", "blocked", "sbi", "hdfc", "icici", "axis", "rbi"]),
   ("upi_fraud", ["upi", "gpay", "phonepe", "paytm", "payment", "cashback", "transfer"]),
   ("phishing", ["link", "click", "http", "website", "portal", "login", "verify online"]),
   ("kyc_fraud", ["kyc", "know your customer", "aadhaar", "pan", "document"]),
   ("job_scam", ["job", "offer", "salary", "work from home", "registration fee", "hire"]),
   ("lottery_scam", ["lottery", "won", "prize", "reward", "lucky", "winner"]),
   ("electricity_bill", ["electricity", "power", "bill", "disconnect", "meter"]),
   ("tax_fraud", ["tax", "income tax", "it department", "refund", "demand notice"]),
   ("customs_parcel", ["customs", "parcel", "delivery", "clearance", "package"]),
   ("tech_support", ["virus", "hack", "computer", "windows", "microsoft", "support"]),
   ("loan_fraud", ["loan", "approved", "pre-approved", "credit", "emi"]),
   ("insurance_fraud", ["insurance", "policy", "claim", "premium"]),
   ("investment_fraud", ["invest", "crypto", "stock", "returns", "profit", "trading"])]

/-- Python `max(scores, key=scores.get)` over an insertion-ordered dict:
the first key attaining the maximal value. -/
def maxByFirst : List (String × Nat) → (String × Nat)
  | [] => ("", 0)
  | x :: rest => rest.foldl (fun acc y => if acc.2 < y.2 then y else acc) x

/-- `prompt_builder.detect_scam_type` : keyword scoring over the joined
lowercased conversation, defaulting to `bank_fraud` when nothing hits. -/
def detectScamType (texts : List String) : String :=
  let combined := lowerStr (String.intercalate " " texts)
  let scores := scamTypeSignals.map (fun st =>
    (st.1, (st.2.filter (fun kw => substrIn kw combined)).length))
  let best := maxByFirst scores
  if 0 < best.2 then best.1 else "bank_fraud"

/-- `options[turn % len(options)]` : rotate through a nonempty pool. -/
def rotate (options : List String) (turn : Nat) : String :=
  match options with
  | [] => ""
  | o :: rest => (o :: rest).get ⟨turn % (o :: rest).length, Nat.mod_lt _ (Nat.succ_pos _)⟩

/-- `agent._generate_fallback_reply` : a canned, context-keyed,
turn-rotated in-character reply used when the LLM is unavailable. -/
def generateFallbackReply (turn : Nat) (scammerMessage : String) : String :=
  let msgLower := lowerStr scammerMessage
  let options :=
    if ["otp", "code", "password"].any (fun k => substrIn k msgLower) then
      ["Sir, I am trying to find the OTP but my phone is running slow. Can you please wait 2 minutes?",
       "Bhaiya, OTP abhi tak nahi aaya, kya aap dubara bhej sakte hain?",
       "Sir, I see many SMS messages. Which one is the correct OTP? Can you please help me identify it?"]
    else if ["upi", "transfer", "payment", "send"].any (fun k => substrIn k msgLower) then
      ["Sir, I am opening my payment app now. Can you please confirm the exact UPI ID one more time?",
       "Bhaiya, mera UPI app load ho raha hai, please 1 minute wait karein.",
       "Sir, my phone is asking for the receiver's name also. What name should I enter?"]
    else if ["link", "url", "website", "click"].any (fun k => substrIn k msgLower) then
      ["Sir, the link is not opening on my phone. Can you please send it again?",
       "Bhaiya, mera internet bahut slow hai, link load nahi ho raha. Kya aap email se bhej sakte hain?",
       "Sir, I clicked on the link but it shows a blank page. Is there another website I can try?"]
    else if ["email", "mail"].any (fun k => substrIn k msgLower) then
      ["Sir, can you please spell out the email address one more time? I want to make sure I type it correctly.",
       "Bhaiya, email address mein @ ke baad kya aata hai? Please confirm karein.",
       "Sir, should I send it from my Gmail or my Yahoo mail? Which one is better?"]
    else
      ["Sir, I am very worried about my account. Can you please explain what I should do step by step?",
       "Bhaiya, mujhe bahut tension ho rahi hai. Kya aap mujhe apna direct number de sakte hain?",
       "Sir, my family member is also here and wants to help. Can you please tell us what to do next?",
       "Sir, I don't understand all this technical process. Can you please guide me slowly?"]
  rotate options turn

/-- `agent._dedupe` : textually identical to `extractor._dedupe_sorted`
(order-preserving, case-insensitive dedup of stripped items). -/
def agentDedupe : List String → List String := dedupeSorted

/-- `agent._union_intel` : merge the regex and LLM intelligence,
deduplicated per category; suspicious keywords stay regex-only. -/
def unionIntel (regexIntel : ExtractedIntelligence) (llmIntel : IntelResponse) :
    ExtractedIntelligence :=
  { phoneNumbers := dedupePhones (regexIntel.phoneNumbers ++ llmIntel.phone_numbers)
    bankAccounts := agentDedupe (regexIntel.bankAccounts ++ llmIntel.bank_accounts)
    upiIds := agentDedupe (regexIntel.upiIds ++ llmIntel.upi_ids)
    phishingLinks := agentDedupe (regexIntel.phishingLinks ++ llmIntel.phishing_links)
    emailAddresses := agentDedupe (regexIntel.emailAddresses ++ llmIntel.email_addresses)
    caseIds := agentDedupe (regexIntel.caseIds ++ llmIntel.case_ids)
    policyNumbers := agentDedupe (regexIntel.policyNumbers ++ llmIntel.policy_numbers)
    orderNumbers := agentDedupe (regexIntel.orderNumbers ++ llmIntel.order_numbers)
    suspiciousKeywords := regexIntel.suspiciousKeywords }

/-- The hard pacing window bound (`PACING_END_TURN` of `run_agent`). -/
def PACING_END_TURN : Nat := 9

/-- The pacing computation of `run_agent` (lines 400–416): inside the
window, spread the remaining time to the 182-second target over the
remaining window turns; clamp non-negative and so that generation time
plus sleep stays under the 24-second per-turn ceiling. -/
def computePacingDelay (enabled : Bool) (turnCount : Nat)
    (elapsedSession elapsedThisTurn : ℚ) : ℚ :=
  let d0 : ℚ :=
    if enabled = true ∧ 1 ≤ turnCount ∧ turnCount ≤ PACING_END_TURN then
      let remaining : ℚ := 182 - elapsedSession
      if 0 < remaining then
        let remainingTurns : ℚ := ((PACING_END_TURN - turnCount) + 1 : ℕ)
        max 0 (remaining / remainingTurns)
      else 0
    else 0
  max 0 (min d0 (24 - elapsedThisTurn))

/-- The fallback `IntelResponse` `run_agent` builds when the intel agent
raises or times out (lines 366–380). -/
def fallbackIntelResponse (allTexts : List String) : IntelResponse :=
  { scam_detected := true
    scam_type := detectScamType allTexts
    confidence_level := 3/4
    phone_numbers := []
    bank_accounts := []
    upi_ids := []
    phishing_links := []
    email_addresses := []
    agent_note := "" }

/-- The per-turn result: updated session, reply text, and whether this
turn started a delivery dispatch (`asyncio.create_task(send_callback_background …)`). -/
structure TurnResult where
  state : SessionState
  reply : String
  dispatched : Bool
deriving Repr, DecidableEq

/-- One turn of `run_agent` (lines 303–464) with the note step (lines
428–446) treated as a no-op, so that the callback decision (lines
451–459) is reachable and the `dispatched` field gives that decision
logic as written: increment the turn counter, extract over the full
conversation, fall back on LLM failure, union the intelligence,
persist, then decide the dispatch.  The pacing sleep changes no state
(`computePacingDelay` models the computed delay).  In the staged
program the note step raises and lines 448–464 are dead code — see
`runTurnActual`, which models that control flow; the state fields this
definition assigns (lines 320–323 and 422–426) are mutated in place
before the note step and persist either way.  The dispatched background
callback (`src/src/callback.py`) is modelled as completing before the
session's next turn: it marks `callback_sent` only when the POST
succeeds (`deliveryOk`). -/
def runTurn (s : SessionState) (conversationHistory : List String)
    (scammerMessage : String) (replyOutcome : Except Unit String)
    (intelOutcome : Except Unit IntelResponse) (deliveryOk : Bool) : TurnResult :=
  let turnCount := s.turn_count + 1
  let allTexts := conversationHistory ++ [scammerMessage]
  let regexIntel := extractIntelligence allTexts
  let replyText :=
    match replyOutcome with
    | .ok r => r
    | .error _ => generateFallbackReply turnCount scammerMessage
  let intelResult :=
    match intelOutcome with
    | .ok r => r
    | .error _ => fallbackIntelResponse allTexts
  let mergedIntel := unionIntel regexIntel intelResult
  let s' : SessionState :=
    { s with
      turn_count := turnCount
      total_messages := turnCount * 2
      intel := mergedIntel
      scam_type := intelResult.scam_type
      scam_detected := intelResult.scam_detected
      confidence_level := intelResult.confidence_level }
  let shouldSend := decide (SEND_CALLBACK_AFTER_TURN ≤ turnCount) ||
    decide (MAX_TURNS ≤ turnCount)
  let dispatched := shouldSend && !s'.callback_sent
  let s'' := if dispatched && deliveryOk then { s' with callback_sent := true } else s'
  { state := s'', reply := replyText, dispatched := dispatched }

/-- `models.AnalyzeResponse`. -/
structure AnalyzeResponse where
  status : String := "success"
  reply : String
deriving Repr, DecidableEq

/-- The canned reply of the `/analyze` route's `except` arm
(`routes.py` lines 58–62). -/
def routesFallbackReply : String :=
  "I'm sorry, I am very confused. Can you please call me back? I need to verify with my bank first."

/-- The `/analyze` endpoint shell (`routes.py` lines 52–64): any exception
out of `run_agent` is swallowed and a canned in-character reply returned;
the response status is always `success`. -/
def analyze (agentOutcome : Except Unit String) : AnalyzeResponse :=
  match agentOutcome with
  | .ok reply => { status := "success", reply := reply }
  | .error _ => { status := "success", reply := routesFallbackReply }

/-! ### The candidate scorer (`src/main.py` `score_response`, lines 541–610)

The response dict's fields used by the scorer become a structure; floats
become `ℚ` (the 0.6/0.4 overlap thresholds are the exact rationals 3/5
and 2/5 — the ratios compared against them are small-denominator
rationals, for which the float comparison of the source and the exact
comparison agree). -/

/-- The intelligence categories of a candidate response dict. -/
structure ScoreIntel where
  phishingLinks : List String := []
  bankAccounts : List String := []
  upiIds : List String := []
  phoneNumbers : List String := []
  employeeIds : List String := []
  emailAddresses : List String := []
deriving Repr, DecidableEq

/-- The fields of `response_dict` that `score_response` reads
(`.get` defaults preserved). -/
structure ResponseDict where
  reply : String := ""
  extractedIntelligence : ScoreIntel := {}
  scamDetected : Bool := false
  confidenceScore : ℚ := 0
deriving Repr, DecidableEq

/-- `intel_weights`, in source (insertion) order. -/
def intelWeights : List (String × ℚ) :=
  [("phishingLinks", 15), ("bankAccounts", 12), ("upiIds", 10),
   ("phoneNumbers", 8), ("employeeIds", 6), ("emailAddresses", 5)]

/-- `intel.get(field, [])` over the fixed field names. -/
def intelField (intel : ScoreIntel) : String → List String
  | "phishingLinks" => intel.phishingLinks
  | "bankAccounts" => intel.bankAccounts
  | "upiIds" => intel.upiIds
  | "phoneNumbers" => intel.phoneNumbers
  | "employeeIds" => intel.employeeIds
  | "emailAddresses" => intel.emailAddresses
  | _ => []

/-- SCORE 1: weighted count of genuinely new items per category. -/
def intelScore (intel known : ScoreIntel) : ℚ :=
  (intelWeights.map (fun fw =>
    (((intelField intel fw.1).filter
        (fun item => !((intelField known fw.1).contains item))).length : ℚ) * fw.2)).sum

/-- `extraction_keywords`. -/
def extractionKeywords : List (String × List String) :=
  [("phishingLinks", ["link", "url", "website", "click", "open"]),
   ("bankAccounts", ["account number", "account no", "khata", "bank account"]),
   ("upiIds", ["upi", "vpa", "paytm", "phonepe", "gpay"]),
   ("phoneNumbers", ["phone number", "mobile", "call", "contact number", "helpline"]),
   ("employeeIds", ["employee id", "badge", "reference", "id number", "officer id"]),
   ("emailAddresses", ["email", "mail id", "gmail"])]

/-- `extraction_keywords.get(field, [])`. -/
def lookupKeywords (field : String) : List String :=
  ((extractionKeywords.lookup field).getD [])

/-- SCORE 2: +15 for each missing field whose trigger vocabulary occurs
in the (lowercased) reply. -/
def keywordBonus (missingFields : List String) (reply : String) : ℚ :=
  15 * ((missingFields.filter
    (fun f => (lookupKeywords f).any (fun kw => substrIn kw reply))).length : ℚ)

/-- SCORE 3: confidence bonus when the candidate claims a scam. -/
def confBonus (d : ResponseDict) : ℚ :=
  if d.scamDetected then d.confidenceScore * 10 else 0

/-- SCORE 4: banded reply-length naturalness bonus. -/
def naturalness (reply : String) : ℚ :=
  if 20 < reply.length ∧ reply.length < 200 then 10
  else if reply.length ≤ 20 then 3
  else 5

/-- `danger_words`. -/
def dangerWords : List String :=
  ["scam", "fraud", "police", "cybercrime", "fake", "cheat", "illegal", "report"]

/-- PENALTY: 20 per danger word occurring (as a substring) in the reply. -/
def dangerPenalty (reply : String) : ℚ :=
  20 * ((dangerWords.filter (fun w => substrIn w reply)).length : ℚ)

/-- Does the (lowercased) reply contain character-breaking vocabulary? -/
def containsDangerWord (reply : String) : Bool :=
  dangerWords.any (fun w => substrIn w reply)

/-- Python `str.split()` : split on whitespace runs, dropping empties. -/
def pySplitWs (s : String) : List String :=
  ((splitClassAux isSpaceC s.data.length s.data).filter (· ≠ [])).map String.mk

/-- First-occurrence dedup (Python `set` as a membership structure). -/
def uniqAux : List String → List String → List String
  | [], acc => acc.reverse
  | x :: rest, acc =>
      if acc.contains x then uniqAux rest acc else uniqAux rest (x :: acc)

/-- The distinct elements of a list, first occurrences first. -/
def uniq (l : List String) : List String := uniqAux l []

/-- `len(set(a) & set(b))`. -/
def overlapCount (a b : List String) : Nat :=
  ((uniq a).filter (fun x => (uniq b).contains x)).length

/-- PENALTY: repetition against previous replies — 25 above 0.6 word
overlap, 10 above 0.4; empty word sets are skipped. -/
def repetitionPenalty (previousReplies : List String) (reply : String) : ℚ :=
  let replyWords := uniq (pySplitWs reply)
  (previousReplies.map (fun prev =>
    let prevWords := uniq (pySplitWs (lowerStr prev))
    if replyWords = [] ∨ prevWords = [] then (0 : ℚ)
    else
      let ratio : ℚ := (overlapCount replyWords prevWords : ℚ) / (max replyWords.length 1 : ℚ)
      if 3/5 < ratio then 25 else if 2/5 < ratio then 10 else 0)).sum

/-- `score_response` : the weighted sum of the five signals minus the two
penalties, on the lowercased reply. -/
def scoreResponse (d : ResponseDict) (knownIntel : ScoreIntel)
    (missingFields : List String) (previousReplies : List String) : ℚ :=
  let reply := lowerStr d.reply
  intelScore d.extractedIntelligence knownIntel
    + keywordBonus missingFields reply
    + confBonus d
    + naturalness reply
    - dangerPenalty reply
    - repetitionPenalty previousReplies reply

/-! ### C1 — session intelligence across turns -/

/-- The accumulator's entries survive the `_dedupe_sorted` loop. -/
theorem dedupeSortedAux_acc_mem :
    ∀ {items seen acc : List String} {w : String}, w ∈ acc →
      w ∈ dedupeSortedAux items seen acc := by
  intro items
  induction items with
  | nil =>
      intro seen acc w h
      rw [dedupeSortedAux]
      exact List.mem_reverse.mpr h
  | cons item rest ih =>
      intro seen acc w h
      rw [dedupeSortedAux]
      by_cases hc : pyStrip item ≠ "" && !(seen.contains (lowerStr (pyStrip item)))
      · rw [if_pos hc]
        exact ih (List.mem_cons_of_mem _ h)
      · rw [if_neg hc]
        exact ih h

/-- Completeness of `_dedupe_sorted`: every input item with nonempty strip
is represented in the output up to case. -/
theorem dedupeSortedAux_complete :
    ∀ {items seen acc : List String} {v : String},
      (∀ k ∈ seen, ∃ w ∈ acc, lowerStr w = k) →
      v ∈ items → pyStrip v ≠ "" →
      ∃ w ∈ dedupeSortedAux items seen acc, lowerStr w = lowerStr (pyStrip v) := by
  intro items
  induction items with
  | nil => intro seen acc v _ hv; simp at hv
  | cons item rest ih =>
      intro seen acc v hinv hv hne
      rw [dedupeSortedAux]
      by_cases hc : pyStrip item ≠ "" && !(seen.contains (lowerStr (pyStrip item)))
      · rw [if_pos hc]
        rcases List.mem_cons.mp hv with rfl | hv'
        · exact ⟨pyStrip v, dedupeSortedAux_acc_mem (List.mem_cons_self ..), rfl⟩
        · refine ih ?_ hv' hne
          intro k hk
          rcases List.mem_cons.mp hk with rfl | hk'
          · exact ⟨pyStrip item, List.mem_cons_self .., rfl⟩
          · obtain ⟨w, hw, he⟩ := hinv k hk'
            exact ⟨w, List.mem_cons_of_mem _ hw, he⟩
      · rw [if_neg hc]
        rw [Bool.not_eq_true, Bool.and_eq_false_iff] at hc
        rcases List.mem_cons.mp hv with rfl | hv'
        · rcases hc with hc1 | hc2
          · exfalso
            apply hne
            simpa using hc1
          · have hcont : seen.contains (lowerStr (pyStrip v)) = true := by
              cases hco : seen.contains (lowerStr (pyStrip v))
              · rw [hco] at hc2; cases hc2
              · rfl
            have hmem : lowerStr (pyStrip v) ∈ seen := List.elem_iff.mp hcont
            obtain ⟨w, hw, he⟩ := hinv _ hmem
            exact ⟨w, dedupeSortedAux_acc_mem hw, he⟩
        · exact ih hinv hv' hne

/-- Completeness of `_dedupe_sorted` at the top level. -/
theorem mem_dedupeSorted_complete {l : List String} {v : String}
    (hv : v ∈ l) (hne : pyStrip v ≠ "") :
    ∃ w ∈ dedupeSorted l, lowerStr w = lowerStr (pyStrip v) := by
  refine dedupeSortedAux_complete ?_ hv hne
  intro k hk
  simp at hk

/-- C1 counterexample: the session's entity sets are not monotone across
turns.  Turn 1's LLM report contributes bank account `123456789`; on turn
2 the LLM reports no entities and the regex finds none in the
conversation, and the stored `bankAccounts` set drops from
`["123456789"]` to `[]` — the later set is not a superset of the earlier
one. -/
theorem intel_monotonicity_counterexample :
    ((runTurn {} [] "hi" (.ok "a")
        (.ok { scam_detected := true, scam_type := "bank_fraud",
               bank_accounts := ["123456789"] }) false).state.intel.bankAccounts
      = ["123456789"]) ∧
    ((runTurn (runTurn {} [] "hi" (.ok "a")
        (.ok { scam_detected := true, scam_type := "bank_fraud",
               bank_accounts := ["123456789"] }) false).state
        ["hi", "a"] "ok" (.ok "b")
        (.ok { scam_detected := true, scam_type := "bank_fraud" })
        false).state.intel.bankAccounts
      = []) :=
  ⟨by decide, by decide⟩

/-- C1 amended: the session's accumulated intelligence is not unioned
with its previous value — each processed turn REPLACES it with the union
of the fresh regex extraction over the caller-supplied conversation and
the current turn's LLM-reported entities (so an entity only an earlier
turn's LLM call reported is dropped).  The stored sets still contain,
up to strip-and-case dedup, every entity of both current contributors. -/
theorem intel_update_rule :
    (∀ (s : SessionState) (hist : List String) (msg : String)
        (ro : Except Unit String) (ir : IntelResponse) (dOk : Bool),
      (runTurn s hist msg ro (.ok ir) dOk).state.intel =
        unionIntel (extractIntelligence (hist ++ [msg])) ir) ∧
    (∀ (s : SessionState) (hist : List String) (msg : String)
        (ro : Except Unit String) (ir : IntelResponse) (dOk : Bool),
      ∀ v ∈ (extractIntelligence (hist ++ [msg])).bankAccounts ++ ir.bank_accounts,
        pyStrip v ≠ "" →
        ∃ w ∈ (runTurn s hist msg ro (.ok ir) dOk).state.intel.bankAccounts,
          lowerStr w = lowerStr (pyStrip v)) := by
  have hstate : ∀ (s : SessionState) (hist : List String) (msg : String)
      (ro : Except Unit String) (ir : IntelResponse) (dOk : Bool),
      (runTurn s hist msg ro (.ok ir) dOk).state.intel =
        unionIntel (extractIntelligence (hist ++ [msg])) ir := by
    intro s hist msg ro ir dOk
    simp only [runTurn]
    split <;> rfl
  refine ⟨hstate, ?_⟩
  intro s hist msg ro ir dOk v hv hne
  have hb : (runTurn s hist msg ro (.ok ir) dOk).state.intel.bankAccounts =
      dedupeSorted ((extractIntelligence (hist ++ [msg])).bankAccounts ++
        ir.bank_accounts) := by
    rw [hstate]
    rfl
  rw [hb]
  exact mem_dedupeSorted_complete hv hne

/-- Witness for C1's amended rule at a concrete input. -/
theorem intel_update_rule_witness :
    ∃ w ∈ (runTurn {} [] "hi" (.ok "a")
        (.ok { scam_detected := true, scam_type := "bank_fraud",
               bank_accounts := ["123456789"] }) false).state.intel.bankAccounts,
      lowerStr w = lowerStr (pyStrip "123456789") :=
  intel_update_rule.2 {} [] "hi" (.ok "a")
    { scam_detected := true, scam_type := "bank_fraud",
      bank_accounts := ["123456789"] } false "123456789" (by decide) (by decide)

/-! ### C4 — delivery dispatch -/

/-- The inputs of one turn of the staged program.  No delivery outcome:
the turn path never reaches a delivery (see `runTurnActual`). -/
structure ActualTurnInput where
  history : List String
  message : String
  replyOutcome : Except Unit String
  intelOutcome : Except Unit IntelResponse

/-- The result of one turn as the staged program actually runs it:
the persisted session, the HTTP response the caller receives, and
whether the turn started a delivery dispatch. -/
structure ActualTurnResult where
  state : SessionState
  response : AnalyzeResponse
  dispatched : Bool
deriving Repr, DecidableEq

/-- One turn of `run_agent` as the staged program actually executes it
(lines 303–446).  The turn counter, message total, merged intelligence
and classification fields are mutated in place on the shared
`SessionState` object (lines 320–323 and 422–426) and therefore
persist; but the note step at line 446 calls `session.set_notes`, a
method `SessionState` (`src/src/session_store.py`) does not define —
it defines `add_note` and `get_agent_notes` — so every turn raises
`AttributeError` there.  The callback decision at lines 451–459 is
never reached: no turn starts a delivery dispatch, and
`session.callback_sent` is untouched.  The exception propagates to the
`/analyze` route, whose `except` arm (`routes.py` lines 58–62) returns
the canned reply; the reply text computed at lines 357–363 is
discarded with the exception. -/
def runTurnActual (s : SessionState) (conversationHistory : List String)
    (scammerMessage : String) (replyOutcome : Except Unit String)
    (intelOutcome : Except Unit IntelResponse) : ActualTurnResult :=
  let turnCount := s.turn_count + 1
  let allTexts := conversationHistory ++ [scammerMessage]
  let regexIntel := extractIntelligence allTexts
  let _replyText :=
    match replyOutcome with
    | .ok r => r
    | .error _ => generateFallbackReply turnCount scammerMessage
  let intelResult :=
    match intelOutcome with
    | .ok r => r
    | .error _ => fallbackIntelResponse allTexts
  let mergedIntel := unionIntel regexIntel intelResult
  let s' : SessionState :=
    { s with
      turn_count := turnCount
      total_messages := turnCount * 2
      intel := mergedIntel
      scam_type := intelResult.scam_type
      scam_detected := intelResult.scam_detected
      confidence_level := intelResult.confidence_level }
  { state := s', response := analyze (.error ()), dispatched := false }

/-- Run a session of the staged program through consecutive turns,
counting how many turns started a delivery dispatch. -/
def runTraceActual (s : SessionState) : List ActualTurnInput → SessionState × Nat
  | [] => (s, 0)
  | i :: rest =>
      let tr := runTurnActual s i.history i.message i.replyOutcome i.intelOutcome
      let r := runTraceActual tr.state rest
      (r.1, (if tr.dispatched then 1 else 0) + r.2)

/-- `send_callback` (`src/src/callback.py` lines 36–71), the only
writer of `callback_sent`: if the flag is already set, skip without
POSTing and report success; otherwise POST and mark the flag exactly
when the response status is 200/201/202 (`deliveryOk`); a non-success
status or an exception leaves the flag clear and reports failure.
Returns the updated session, the reported Boolean, and whether a POST
was made. -/
def sendCallback (s : SessionState) (deliveryOk : Bool) :
    SessionState × Bool × Bool :=
  if s.callback_sent then (s, true, false)
  else if deliveryOk then ({ s with callback_sent := true }, true, true)
  else (s, false, true)

/-- C4: the delivery callback is dispatched at most once per session.
In the staged program the termination-condition check (`run_agent`
lines 451–459) is unreachable — the preceding note step raises on
every turn — so no turn starts a dispatch at all: each turn reports
`dispatched = false` and leaves `callback_sent` exactly as it was, and
every trace's dispatch count is zero, hence at most one.  The
delivery-sent flag itself is one-way: `send_callback`, its only
writer, skips without POSTing and preserves the flag once it is
`true`, and otherwise moves the flag from `false` to `true` exactly on
a successful delivery — it never returns to `false`. -/
theorem callback_dispatched_at_most_once :
    (∀ (s : SessionState) (hist : List String) (msg : String)
        (ro : Except Unit String) (io : Except Unit IntelResponse),
      (runTurnActual s hist msg ro io).dispatched = false ∧
      (runTurnActual s hist msg ro io).state.callback_sent = s.callback_sent) ∧
    (∀ (s : SessionState) (inputs : List ActualTurnInput),
      (runTraceActual s inputs).2 = 0) ∧
    (∀ (s : SessionState) (dOk : Bool), s.callback_sent = true →
      sendCallback s dOk = (s, true, false)) ∧
    (∀ (s : SessionState) (dOk : Bool),
      (sendCallback s dOk).1.callback_sent = (s.callback_sent || dOk)) := by
  refine ⟨fun s hist msg ro io => ⟨rfl, rfl⟩, ?_, ?_, ?_⟩
  · intro s inputs
    induction inputs generalizing s with
    | nil => rfl
    | cons i rest ih =>
        rw [runTraceActual]
        have hd : (runTurnActual s i.history i.message i.replyOutcome
            i.intelOutcome).dispatched = false := rfl
        simp [hd, ih]
  · intro s dOk h
    simp [sendCallback, h]
  · intro s dOk
    cases h : s.callback_sent <;> cases hdOk : dOk <;>
      simp [sendCallback, h, hdOk]

/-- Witness for C4 at concrete inputs: a flagged session's
`send_callback` skips, reports success and preserves the state, and a
2-turn trace of the staged program from a fresh session past the
callback threshold starts zero dispatches. -/
theorem callback_dispatched_at_most_once_witness :
    (sendCallback { callback_sent := true, turn_count := 9 } false =
      ({ callback_sent := true, turn_count := 9 }, true, false)) ∧
    ((runTraceActual { turn_count := 8 }
        [{ history := [], message := "hi", replyOutcome := .ok "a",
           intelOutcome := .ok { scam_detected := true, scam_type := "bank_fraud" } },
         { history := ["hi", "a"], message := "ok", replyOutcome := .ok "b",
           intelOutcome := .ok { scam_detected := true, scam_type := "bank_fraud" } }]).2
      = 0) :=
  ⟨callback_dispatched_at_most_once.2.2.1
      { callback_sent := true, turn_count := 9 } false rfl,
   callback_dispatched_at_most_once.2.1 { turn_count := 8 } _⟩

/-! ### C5 — scam classification updates -/

/-- C5 counterexample: a previously stored non-`unknown` classification
is NOT retained when the intel agent succeeds but reports `unknown`.
Turn 1 stores `upi_fraud`; on turn 2 a successful report of `unknown`
overwrites it, and no keyword fallback runs. -/
theorem scam_type_retention_counterexample :
    ((runTurn {} [] "hi" (.ok "a")
        (.ok { scam_detected := true, scam_type := "upi_fraud" })
        false).state.scam_type = "upi_fraud") ∧
    ((runTurn (runTurn {} [] "hi" (.ok "a")
        (.ok { scam_detected := true, scam_type := "upi_fraud" }) false).state
        ["hi", "a"] "ok" (.ok "b")
        (.ok { scam_detected := true, scam_type := "unknown" })
        false).state.scam_type = "unknown") :=
  ⟨by decide, by decide⟩

/-- C5 amended: the stored scam classification is simply the most recent
self-reported value — a successful turn's report overwrites the previous
value even when it is `"unknown"`; the keyword-scoring fallback
(`detect_scam_type` over the full conversation text, default
`bank_fraud`) is used only when the intelligence call fails (raises or
times out), never merely because it reported `"unknown"`. -/
theorem scam_type_update_rule :
    ∀ (s : SessionState) (hist : List String) (msg : String)
      (ro : Except Unit String) (io : Except Unit IntelResponse) (dOk : Bool),
      (runTurn s hist msg ro io dOk).state.scam_type =
        (match io with
         | .ok r => r.scam_type
         | .error _ => detectScamType (hist ++ [msg])) := by
  intro s hist msg ro io dOk
  cases io with
  | ok r =>
      simp only [runTurn]
      split <;> rfl
  | error e =>
      simp only [runTurn]
      split <;> rfl

/-! ### C6 — the turn endpoint never errors -/

/-- A rotation through a pool of non-empty options is non-empty. -/
theorem rotate_ne_empty {options : List String} (hne : options ≠ [])
    (hall : ∀ x ∈ options, x ≠ "") (turn : Nat) : rotate options turn ≠ "" := by
  match options, hne with
  | o :: rest, _ =>
      rw [rotate]
      exact hall _ (List.get_mem ..)

/-- The LLM-outage fallback reply is always a non-empty canned line. -/
theorem generateFallbackReply_ne_empty (turn : Nat) (msg : String) :
    generateFallbackReply turn msg ≠ "" := by
  rw [generateFallbackReply]
  split
  · exact rotate_ne_empty (by simp) (by decide) turn
  · split
    · exact rotate_ne_empty (by simp) (by decide) turn
    · split
      · exact rotate_ne_empty (by simp) (by decide) turn
      · split
        · exact rotate_ne_empty (by simp) (by decide) turn
        · exact rotate_ne_empty (by simp) (by decide) turn

/-- C6: generation-layer failures (raises, timeouts, malformed structured
output — all of which surface as exceptional outcomes) and delivery
failures never produce a server error: the endpoint's status is always
`success`, and the reply returned under a generation failure is a
non-empty in-character fallback line; an exception escaping `run_agent`
itself is also answered with `success` and a non-empty canned reply. -/
theorem endpoint_no_server_error :
    (∀ (s : SessionState) (hist : List String) (msg : String)
        (io : Except Unit IntelResponse) (dOk : Bool),
      (analyze (.ok (runTurn s hist msg (.error ()) io dOk).reply)).status = "success" ∧
      (analyze (.ok (runTurn s hist msg (.error ()) io dOk).reply)).reply ≠ "" ∧
      (runTurn s hist msg (.error ()) io dOk).reply =
        generateFallbackReply (s.turn_count + 1) msg) ∧
    ((analyze (.error ())).status = "success" ∧ (analyze (.error ())).reply ≠ "") ∧
    (∀ ro : Except Unit String, (analyze ro).status = "success") := by
  refine ⟨?_, ⟨rfl, by decide⟩, ?_⟩
  · intro s hist msg io dOk
    have hreply : (runTurn s hist msg (.error ()) io dOk).reply =
        generateFallbackReply (s.turn_count + 1) msg := rfl
    exact ⟨rfl, by rw [analyze, hreply]; exact generateFallbackReply_ne_empty _ msg, hreply⟩
  · intro ro
    cases ro <;> rfl

/-! ### C9 — pacing -/

/-- C9: with smart pacing enabled, at the first turn of the 9-turn pacing
window with zero elapsed session time the computed delay is the
182-second target divided by the 9 window turns, clamped non-negative and
clamped so that the turn's generation time plus the sleep stays within
the 24-second ceiling; outside the window (turn count past 9) the delay
is zero. -/
theorem pacing_delay_spec :
    (∀ g : ℚ, computePacingDelay SMART_PACING_ENABLED 1 0 g =
      max 0 (min (182 / 9) (24 - g))) ∧
    (∀ (t : Nat) (e g : ℚ), PACING_END_TURN < t →
      computePacingDelay SMART_PACING_ENABLED t e g = 0) := by
  constructor
  · intro g
    rw [computePacingDelay]
    rw [if_pos ⟨rfl, le_refl 1, by decide⟩]
    rw [if_pos (by norm_num : (0 : ℚ) < 182 - 0)]
    norm_num [PACING_END_TURN]
  · intro t e g ht
    rw [computePacingDelay]
    rw [if_neg (by rintro ⟨-, -, hle⟩; omega)]
    have h1 : min (0 : ℚ) (24 - g) ≤ 0 := min_le_left _ _
    exact max_eq_left h1

/-- Witness for C9 at concrete inputs: 5 seconds of generation time on
the first turn, and turn 10 outside the window. -/
theorem pacing_delay_spec_witness :
    computePacingDelay SMART_PACING_ENABLED 1 0 5 = max 0 (min (182 / 9) (24 - 5)) ∧
    computePacingDelay SMART_PACING_ENABLED 10 3 7 = 0 :=
  ⟨pacing_delay_spec.1 5, pacing_delay_spec.2 10 3 7 (by decide)⟩

/-! ### C10 — intel-agent outage forces a positive classification -/

/-- C10: whenever the structured intelligence call fails (raises or times
out), the session is left with `scam_detected = true` and the fixed dummy
`confidence_level = 0.75`, whatever the conversation contains; the scam
type is then the keyword fallback's guess. -/
theorem intel_failure_forces_scam :
    ∀ (s : SessionState) (hist : List String) (msg : String)
      (ro : Except Unit String) (dOk : Bool),
      (runTurn s hist msg ro (.error ()) dOk).state.scam_detected = true ∧
      (runTurn s hist msg ro (.error ()) dOk).state.confidence_level = 3 / 4 ∧
      (runTurn s hist msg ro (.error ()) dOk).state.scam_type =
        detectScamType (hist ++ [msg]) := by
  intro s hist msg ro dOk
  refine ⟨?_, ?_, ?_⟩
  · simp only [runTurn]
    split <;> rfl
  · simp only [runTurn]
    split <;> rfl
  · simp only [runTurn]
    split <;> rfl

/-! ### C8 — the character-breaking-vocabulary penalty -/

/-- C8 counterexample: a candidate whose reply contains a danger word can
score strictly HIGHER than an otherwise identical candidate without any,
because the reply-dependent bonuses (here the missing-field trigger
vocabulary bonus and the length band) can outweigh the 20-point penalty:
with every category missing, the tainted reply scores 80 and the clean
reply 3. -/
theorem danger_penalty_counterexample :
    containsDangerWord (lowerStr "police link upi email mobile badge account number") = true ∧
    containsDangerWord (lowerStr "ok") = false ∧
    scoreResponse { reply := "ok" } {}
        ["phishingLinks", "bankAccounts", "upiIds", "phoneNumbers",
         "employeeIds", "emailAddresses"] [] <
      scoreResponse { reply := "police link upi email mobile badge account number" } {}
        ["phishingLinks", "bankAccounts", "upiIds", "phoneNumbers",
         "employeeIds", "emailAddresses"] [] := by
  refine ⟨by decide, by decide, ?_⟩
  have hf_ok : (["phishingLinks", "bankAccounts", "upiIds", "phoneNumbers",
      "employeeIds", "emailAddresses"].filter
        (fun f => (lookupKeywords f).any (fun kw => substrIn kw (lowerStr "ok")))) = [] := by
    decide
  have hf_dirty : (["phishingLinks", "bankAccounts", "upiIds", "phoneNumbers",
      "employeeIds", "emailAddresses"].filter
        (fun f => (lookupKeywords f).any (fun kw => substrIn kw
          (lowerStr "police link upi email mobile badge account number")))) =
      ["phishingLinks", "bankAccounts", "upiIds", "phoneNumbers",
       "employeeIds", "emailAddresses"] := by
    decide
  have hdw_ok : (dangerWords.filter (fun w => substrIn w (lowerStr "ok"))) = [] := by decide
  have hdw_dirty : (dangerWords.filter (fun w => substrIn w
      (lowerStr "police link upi email mobile badge account number"))) = ["police"] := by
    decide
  have hlen_ok : (lowerStr "ok").length = 2 := rfl
  have hlen_dirty : (lowerStr "police link upi email mobile badge account number").length = 49 :=
    rfl
  simp only [scoreResponse, keywordBonus, confBonus, naturalness, dangerPenalty,
    repetitionPenalty, intelScore, intelWeights, intelField, hf_ok, hf_dirty, hdw_ok,
    hdw_dirty, hlen_ok, hlen_dirty, List.map_nil, List.sum_nil]
  norm_num

/-- A reply with no danger word incurs no danger penalty. -/
theorem dangerPenalty_eq_zero {reply : String}
    (h : containsDangerWord reply = false) : dangerPenalty reply = 0 := by
  rw [dangerPenalty]
  have : dangerWords.filter (fun w => substrIn w reply) = [] := by
    rw [List.filter_eq_nil_iff]
    intro w hw
    rw [containsDangerWord] at h
    have := List.any_eq_false.mp h w hw
    simpa using this
  rw [this]
  simp

/-- A reply with a danger word pays at least 20 points. -/
theorem dangerPenalty_ge_twenty {reply : String}
    (h : containsDangerWord reply = true) : 20 ≤ dangerPenalty reply := by
  rw [dangerPenalty]
  rw [containsDangerWord, List.any_eq_true] at h
  obtain ⟨w, hw, hsub⟩ := h
  have hmem : w ∈ dangerWords.filter (fun v => substrIn v reply) :=
    List.mem_filter.mpr ⟨hw, hsub⟩
  have hlen : 1 ≤ (dangerWords.filter (fun v => substrIn v reply)).length :=
    List.length_pos.mpr (List.ne_nil_of_mem hmem)
  have hcast : (1 : ℚ) ≤ ((dangerWords.filter (fun v => substrIn v reply)).length : ℚ) := by
    exact_mod_cast hlen
  nlinarith

/-- C8 amended: the 20-point penalty applies once per distinct vocabulary
word present in the reply (substring match), and it makes the tainted
candidate score strictly lower than an otherwise identical clean one
PROVIDED the two replies are otherwise equivalent to the scorer — same
missing-field trigger bonus, same length band and same repetition
penalty; reply-dependent bonuses can otherwise outweigh the penalty. -/
theorem danger_penalty_amended :
    ∀ (d c : ResponseDict) (ki : ScoreIntel) (mf pr : List String),
      d.extractedIntelligence = c.extractedIntelligence →
      d.scamDetected = c.scamDetected →
      d.confidenceScore = c.confidenceScore →
      keywordBonus mf (lowerStr d.reply) = keywordBonus mf (lowerStr c.reply) →
      naturalness (lowerStr d.reply) = naturalness (lowerStr c.reply) →
      repetitionPenalty pr (lowerStr d.reply) = repetitionPenalty pr (lowerStr c.reply) →
      containsDangerWord (lowerStr d.reply) = true →
      containsDangerWord (lowerStr c.reply) = false →
      scoreResponse d ki mf pr < scoreResponse c ki mf pr := by
  intro d c ki mf pr hint hsc hconf hkw hnat hrep hdang hclean
  rw [scoreResponse, scoreResponse]
  have hcb : confBonus d = confBonus c := by
    rw [confBonus, confBonus, hsc, hconf]
  rw [hint, hcb, hkw, hnat, hrep, dangerPenalty_eq_zero hclean]
  have h20 := dangerPenalty_ge_twenty hdang
  linarith

/-- Witness for C8's amended rule: `smart police` loses to the equally
long, bonus-equivalent `smart helper`. -/
theorem danger_penalty_amended_witness :
    scoreResponse { reply := "smart police" } {} [] [] <
      scoreResponse { reply := "smart helper" } {} [] [] :=
  danger_penalty_amended { reply := "smart police" } { reply := "smart helper" }
    {} [] [] rfl rfl rfl rfl rfl rfl (by decide) (by decide)

end Guvi


